import Mathlib

/-!
# myFlix upload handler (`src/main.go`)

A shallow embedding of `uploadHandler` together with the parts of the Go
standard library it calls.  The library is not part of the repository; it
is embedded here after its Unix sources and documentation: `path/filepath`
(`Clean`, `Base`, `Join`) byte by byte, `net/http` and `mime/multipart`
(`ParseMultipartForm`, `FormFile`) on a body given as its sequence of parts,
`os` and `io` as operations on an explicit world.  Strings are lists of
characters, byte contents are lists of bytes, and the world (files,
directories, open handles, the HTTP response being written, a log of the
calls made) is a state that every operation threads.  Failures that depend
on the environment (permissions, disk full, broken streams) are decided by
an explicit oracle `Env`.
-/

namespace MyFlix

abbrev Str := List Char

abbrev Bytes := List UInt8

/-! ## `path/filepath` (Unix) -/

/-- Function `os.IsPathSeparator` on Unix. -/
def isSep (c : Char) : Bool := c == '/'

/-- The inner loop of the `..` case of `filepath.Clean`, after the first
`out.w--`: `for out.w > dotdot && !IsPathSeparator(out.index(out.w)) { out.w-- }`.
The argument is the current `out.w`, the result the final one. -/
def backtrackW (out : Str) (dotdot : Nat) : Nat → Nat
  | 0 => 0
  | w + 1 =>
    if dotdot < w + 1 ∧ isSep (out.getD (w + 1) '/') = false then backtrackW out dotdot w
    else w + 1

/-- The main loop `for r < n { switch ... }` of `filepath.Clean`.  The list
argument is `path[r:]`, `out` holds the first `out.w` bytes of the output
buffer, and the result is the final `(out, dotdot)`.  Every iteration
consumes at least one byte of `path[r:]`; the first argument bounds the number
of iterations. -/
def cleanLoop (rooted : Bool) : Nat → Str → Str → Nat → Str × Nat
  | 0, _, out, dotdot => (out, dotdot)
  | _ + 1, [], out, dotdot => (out, dotdot)
  | fuel + 1, c :: rest, out, dotdot =>
    if isSep c then
      -- empty path element
      cleanLoop rooted fuel rest out dotdot
    else if c = '.' ∧ (rest = [] ∨ isSep (rest.headD 'x')) then
      -- . element
      cleanLoop rooted fuel rest out dotdot
    else if c = '.' ∧ rest.head? = some '.' ∧
        (rest.tail = [] ∨ isSep (rest.tail.headD 'x')) then
      -- .. element: remove to last separator
      if dotdot < out.length then
        -- can backtrack
        cleanLoop rooted fuel rest.tail
          (out.take (backtrackW out dotdot (out.length - 1))) dotdot
      else if rooted = false then
        -- cannot backtrack, but not rooted, so append .. element
        let out1 := (if 0 < out.length then out ++ ['/'] else out) ++ ['.', '.']
        cleanLoop rooted fuel rest.tail out1 out1.length
      else
        cleanLoop rooted fuel rest.tail out dotdot
    else
      -- real path element: add slash if needed, then copy the element
      let out1 :=
        if (rooted = true ∧ out.length ≠ 1) ∨ (rooted = false ∧ out.length ≠ 0)
        then out ++ ['/'] else out
      cleanLoop rooted fuel ((c :: rest).dropWhile (fun x => !isSep x))
        (out1 ++ (c :: rest).takeWhile (fun x => !isSep x)) dotdot

/-- Function `filepath.Clean` on Unix (no volume names, `FromSlash` is the
identity). -/
def Clean (path : Str) : Str :=
  match path with
  | [] => ['.']
  | c :: _ =>
    let rooted := isSep c
    let st :=
      if rooted then cleanLoop rooted path.length path.tail ['/'] 1
      else cleanLoop rooted path.length path [] 0
    -- Turn empty string into "."
    if st.1.length = 0 then ['.'] else st.1

/-- Function `filepath.Base` on Unix: strip trailing slashes, keep what
follows the last remaining slash, and turn an empty result into `/`. -/
def Base (path : Str) : Str :=
  if path = [] then ['.']
  else
    let stripped := (path.reverse.dropWhile isSep).reverse
    let last := (stripped.reverse.takeWhile (fun x => !isSep x)).reverse
    if last = [] then ['/'] else last

/-- Function `filepath.Join` on Unix: the elements from the first non-empty
one on are joined with `/` and cleaned. -/
def Join : List Str → Str
  | [] => []
  | e :: rest => if e ≠ [] then Clean (List.intercalate ['/'] (e :: rest)) else Join rest

/-- A path element that names an entry of a directory: not empty, not `.`,
not `..`, and free of separators. -/
def normalSeg (s : Str) : Bool :=
  s ≠ [] && s ≠ ['.'] && s ≠ ['.', '.'] && s.all (fun x => !isSep x)

/-- The elements of a path between its separators. -/
def segments : Str → List Str
  | [] => [[]]
  | c :: rest =>
    if isSep c then [] :: segments rest
    else
      match segments rest with
      | [] => [[c]]
      | s :: ss => (c :: s) :: ss

/-- Lexical containment: `p` is `root`, a separator, and then one or more
path elements each of which names a directory entry (so none of them is
`..`). -/
def isStrictDescendant (root p : Str) : Bool :=
  (root ++ ['/']).isPrefixOf p && (segments (p.drop (root.length + 1))).all normalSeg

/-! ## `mime/multipart` and `net/http` request parsing -/

/-- Environment-dependent failures: creating or writing the temporary file
of the multipart reader, opening a stored file part, `os.MkdirAll`,
`os.Create`.  `copyErr = some k` makes `io.Copy` return an error after `k`
bytes (at most the whole content) have been written. -/
structure Env where
  tempErr : Bool
  openErr : Bool
  mkdirAllErr : Str → Bool
  createErr : Str → Bool
  copyErr : Option Nat

/-- One part of a multipart body as `Reader.nextPart` delivers it: its MIME
header, the `name` and `filename` parameters of its `Content-Disposition`
(empty when absent), and its content. -/
structure Part where
  Header : List (Str × List Str)
  name : Str
  filename : Str
  content : Bytes

/-- Method `Part.FileName`: empty for a part without a file name, and the
base name of the `filename` parameter otherwise. -/
def Part.FileName (p : Part) : Str :=
  if p.filename = [] then [] else Base p.filename

/-- Function `mimeHeaderSize` of `mime/multipart`: 400, plus for every key
its length, 200, and the lengths of its values. -/
def mimeHeaderSize (h : List (Str × List Str)) : Nat :=
  400 + (h.map (fun kv => kv.1.length + 200 + (kv.2.map List.length).sum)).sum

/-- Type `multipart.FileHeader`: the file name and where the parser put the
content (memory, or a temporary file on disk). -/
structure FileHeader where
  Filename : Str
  content : Bytes
  onDisk : Bool

/-- Type `multipart.Form`. -/
structure Form where
  Value : List (Str × Bytes)
  File : List (Str × FileHeader)

/-- The loop of `multipart.Reader.readForm` (Go 1.20 and later) over the
parts of a body; the limits `nextPart` itself puts on a part header belong to
the reader and are not repeated here.
`maxParts` starts as 1000, `maxFileMemoryBytes` as `maxMemory` and
`maxMemoryBytes` as `maxMemory + 10 MiB`.  A part beyond `maxParts` is
`ErrMessageTooLarge`; a part without a name is skipped; every other part is
charged its name and 200 bytes.  A part without a file name is a value, kept
in memory, and `ErrMessageTooLarge` when it does not fit.  A file part is
charged its header, 200 and 100 bytes; when its content does not fit in the
file budget it is written to a temporary file on disk, and otherwise it is
kept in memory and charged to both budgets. -/
def readForm (env : Env) : List Part → Nat → Int → Int → Option Form
  | [], _, _, _ => some ⟨[], []⟩
  | p :: ps, maxParts, maxFileMemoryBytes, maxMemoryBytes =>
    if maxParts = 0 then none
    else if p.name = [] then readForm env ps (maxParts - 1) maxFileMemoryBytes maxMemoryBytes
    else if maxMemoryBytes - (p.name.length : Int) - 200 < 0 then none
    else if p.FileName = [] then
      -- value, store as string in memory
      if maxMemoryBytes - (p.name.length : Int) - 200 - (p.content.length : Int) < 0 then none
      else
        (readForm env ps (maxParts - 1) maxFileMemoryBytes
          (maxMemoryBytes - (p.name.length : Int) - 200 - (p.content.length : Int))).map
          (fun f => { f with Value := (p.name, p.content) :: f.Value })
    else if maxMemoryBytes - (p.name.length : Int) - 200
        - (mimeHeaderSize p.Header : Int) - 200 - 100 < 0 then none
    else if maxFileMemoryBytes < (p.content.length : Int) then
      -- too big for memory: written to a temporary file
      if env.tempErr then none
      else
        (readForm env ps (maxParts - 1) maxFileMemoryBytes
          (maxMemoryBytes - (p.name.length : Int) - 200
            - (mimeHeaderSize p.Header : Int) - 200 - 100)).map
          (fun f => { f with File := (p.name, ⟨p.FileName, p.content, true⟩) :: f.File })
    else
      (readForm env ps (maxParts - 1) (maxFileMemoryBytes - (p.content.length : Int))
        (maxMemoryBytes - (p.name.length : Int) - 200
          - (mimeHeaderSize p.Header : Int) - 200 - 100 - (p.content.length : Int))).map
        (fun f => { f with File := (p.name, ⟨p.FileName, p.content, false⟩) :: f.File })

/-- The part of `http.Request` the handler reads: the method, the decoded
query pairs in order, and the multipart body as its sequence of parts.
`body = none` stands for a request on which the multipart reader itself
fails before the end of the body (no multipart content type, a malformed
body or part header, a part header over the reader's limits, a broken
connection). -/
structure Request where
  Method : Str
  query : List (Str × Str)
  body : Option (List Part)

/-- Method `r.URL.Query().Get(key)`: the first value of the key, or the empty
string. -/
def queryGet (q : List (Str × Str)) (key : Str) : Str :=
  match q.find? (fun kv => kv.1 == key) with
  | some kv => kv.2
  | none => []

/-! ## The world -/

/-- Observable calls made while a request is handled. -/
inductive Event where
  | parseForm (maxMemory : Nat)
  | openPart (h : Nat)
  | mkdirAll (path : Str) (ok : Bool)
  | create (path : Str) (h : Option Nat)
  | write (h : Nat) (n : Nat)
  | close (h : Nat)
  deriving DecidableEq

/-- The state outside the handler: regular files and directories (keyed by
cleaned path), the open handles and the next free handle, the calls of
`WriteHeader` made on the response (explicit or implied by the first
`Write`), the response body, and the log of calls.  The temporary files the
multipart parser keeps in the system's temporary directory are not part of
it. -/
structure World where
  files : Str → Option Bytes
  dirs : List Str
  handles : List Nat
  next : Nat
  status : List Nat
  body : Str
  trace : List Event

/-- An open destination file: its handle and the file it refers to. -/
structure File where
  h : Nat
  path : Str

/-- Function `http.Error`: `w.WriteHeader(code)` then `fmt.Fprintln(w, error)`. -/
def httpError (w : World) (msg : Str) (code : Nat) : World :=
  { w with status := w.status ++ [code], body := w.body ++ msg ++ ['\n'] }

/-- A `Write` on the response (here through `fmt.Fprintf`): the first write
implies `WriteHeader(200)` when no header was written before. -/
def Fprintf (w : World) (data : Str) : World :=
  { w with status := if w.status = [] then [200] else w.status, body := w.body ++ data }

/-- Method `r.ParseMultipartForm(maxMemory)`. -/
def ParseMultipartForm (env : Env) (r : Request) (w : World) (maxMemory : Nat) :
    Option Form × World :=
  let w1 := { w with trace := w.trace ++ [Event.parseForm maxMemory] }
  match r.body with
  | none => (none, w1)
  | some parts =>
    (readForm env parts 1000 (maxMemory : Int)
      ((maxMemory : Int) + ((10 <<< 20 : Nat) : Int)), w1)

/-- Method `r.FormFile(key)` on a parsed form: the first file stored under the
key is opened; a file kept on disk can fail to open, a missing key is
`ErrMissingFile`. -/
def FormFile (env : Env) (w : World) (form : Form) (key : Str) :
    Option (Nat × FileHeader) × World :=
  match form.File.find? (fun kv => kv.1 == key) with
  | none => (none, w)
  | some kv =>
    if kv.2.onDisk && env.openErr then (none, w)
    else
      (some (w.next, kv.2),
        { w with handles := w.next :: w.handles, next := w.next + 1,
                 trace := w.trace ++ [Event.openPart w.next] })

/-- Whether a path names a directory: the working directory, the root, a
chain of parent directories (`..`, `../..`, and so on), or a directory known
to exist. -/
def isDir (w : World) (p : Str) : Bool :=
  Clean p == ['.'] || Clean p == ['/'] ||
    (segments (Clean p)).all (fun s => s == ['.', '.']) || w.dirs.contains (Clean p)

/-- The prefixes of a path that end just before one of its separators,
`pre` being the part of the path already read. -/
def parentsFrom (pre : Str) : Str → List Str
  | [] => []
  | c :: rest =>
    if isSep c && pre ≠ [] then pre :: parentsFrom (pre ++ [c]) rest
    else parentsFrom (pre ++ [c]) rest

/-- A cleaned path and the directories above it, as far as the path names
them. -/
def withParents (p : Str) : List Str := p :: parentsFrom [] p

/-- Function `os.MkdirAll(path, 0755)`: fails when the environment says so,
when the path is empty, or when the path or a directory above it is a
regular file; otherwise the directory and those above it exist afterwards. -/
def MkdirAll (env : Env) (w : World) (path : Str) : Bool × World :=
  if env.mkdirAllErr path || path == [] ||
      (withParents (Clean path)).any (fun d => (w.files d).isSome) then
    (false, { w with trace := w.trace ++ [Event.mkdirAll path false] })
  else
    (true, { w with dirs := withParents (Clean path) ++ w.dirs,
                    trace := w.trace ++ [Event.mkdirAll path true] })

/-- Function `os.Create(name)` (`O_RDWR|O_CREATE|O_TRUNC`): fails when the
environment says so or when the name is a directory; otherwise the file
exists afterwards with empty content and a fresh handle is open on it. -/
def Create (env : Env) (w : World) (name : Str) : Option File × World :=
  if env.createErr name || isDir w name then
    (none, { w with trace := w.trace ++ [Event.create name none] })
  else
    (some ⟨w.next, Clean name⟩,
      { w with files := Function.update w.files (Clean name) (some []),
               handles := w.next :: w.handles, next := w.next + 1,
               trace := w.trace ++ [Event.create name (some w.next)] })

/-- Function `io.Copy(dst, src)` from a stream holding `content`: the bytes
written are appended to the destination file; the result is whether the copy
ended without error. -/
def ioCopy (env : Env) (w : World) (dst : File) (content : Bytes) : Bool × World :=
  let written := match env.copyErr with
    | none => content
    | some k => content.take k
  (env.copyErr.isNone,
    { w with files := Function.update w.files dst.path
               (some ((w.files dst.path).getD [] ++ written)),
             trace := w.trace ++ [Event.write dst.h written.length] })

/-- Method `Close` of a file or stream handle. -/
def Close (h : Nat) (w : World) : World :=
  { w with handles := w.handles.erase h, trace := w.trace ++ [Event.close h] }

/-- The content of the regular file a path names, if there is one. -/
def readFile (w : World) (p : Str) : Option Bytes := w.files (Clean p)

/-! ## `src/main.go` -/

/-- The directory the handler uploads into: the `path` query parameter, or
`./uploads` when it is empty (lines 34-37). -/
def uploadPathOf (r : Request) : Str :=
  let uploadPath := queryGet r.query "path".toList
  if uploadPath = [] then "./uploads".toList else uploadPath

/-- The destination of the upload (line 47). -/
def destPathOf (r : Request) (filename : Str) : Str :=
  Join [uploadPathOf r, Base filename]

/-- Function `uploadHandler` of `src/main.go`.  A deferred `Close` runs after
the rest of the function body, on every way out of it. -/
def uploadHandler (env : Env) (r : Request) (w : World) : World :=
  if r.Method = "POST".toList then
    match ParseMultipartForm env r w (10 <<< 30) with
    | (none, w1) => httpError w1 "Unable to parse form".toList 400
    | (some form, w1) =>
      match FormFile env w1 form "file".toList with
      | (none, w2) => httpError w2 "Unable to retrieve file".toList 400
      | (some (file, handler), w2) =>
        -- defer file.Close()
        Close file <|
          let uploadPath := uploadPathOf r
          match MkdirAll env w2 uploadPath with
          | (false, w3) => httpError w3 "Unable to create upload directory".toList 500
          | (true, w3) =>
            let destPath := Join [uploadPath, Base handler.Filename]
            match Create env w3 destPath with
            | (none, w4) => httpError w4 "Unable to save file".toList 500
            | (some dst, w4) =>
              -- defer dst.Close()
              Close dst.h <|
                match ioCopy env w4 dst handler.content with
                | (false, w5) => httpError w5 "Unable to save file".toList 500
                | (true, w5) =>
                  Fprintf w5 ("File uploaded successfully to: ".toList ++ destPath)
  else
    httpError w "Invalid request method".toList 405

/-! ## Concrete worlds and requests -/

/-- A world with no files, no known directories and no open handles. -/
def World.empty : World :=
  { files := fun _ => none, dirs := [], handles := [], next := 0,
    status := [], body := [], trace := [] }

/-- An environment in which nothing fails. -/
def Env.ok : Env :=
  { tempErr := false, openErr := false, mkdirAllErr := fun _ => false,
    createErr := fun _ => false, copyErr := none }

/-- A `POST` carrying one part, sent under the field `file` with the given
file name. -/
def postFile (query : List (Str × Str)) (filename : Str) (content : Bytes) : Request :=
  { Method := "POST".toList, query := query,
    body := some [{ Header := [("Content-Disposition".toList,
                      ["form-data; name=file; filename=".toList ++ filename])],
                    name := "file".toList, filename := filename, content := content }] }

/-! ## Auxiliary definitions -/

/-- The loop of `filepath.Clean` run on `path[r:]` with as many iterations
as there are bytes left. -/
def cleanRun (rooted : Bool) (rest out : Str) (dotdot : Nat) : Str × Nat :=
  cleanLoop rooted rest.length rest out dotdot

/-- One iteration of the loop of `filepath.Clean` on `c :: rest`: what is
left of the input, the output buffer and `dotdot` afterwards. -/
def cleanStep (rooted : Bool) (c : Char) (rest out : Str) (dotdot : Nat) : Str × Str × Nat :=
  if isSep c then (rest, out, dotdot)
  else if c = '.' ∧ (rest = [] ∨ isSep (rest.headD 'x')) then (rest, out, dotdot)
  else if c = '.' ∧ rest.head? = some '.' ∧
      (rest.tail = [] ∨ isSep (rest.tail.headD 'x')) then
    if dotdot < out.length then
      (rest.tail, out.take (backtrackW out dotdot (out.length - 1)), dotdot)
    else if rooted = false then
      (rest.tail, (if 0 < out.length then out ++ ['/'] else out) ++ ['.', '.'],
        ((if 0 < out.length then out ++ ['/'] else out) ++ ['.', '.']).length)
    else (rest.tail, out, dotdot)
  else
    ((c :: rest).dropWhile (fun x => !isSep x),
      (if (rooted = true ∧ out.length ≠ 1) ∨ (rooted = false ∧ out.length ≠ 0)
        then out ++ ['/'] else out) ++ (c :: rest).takeWhile (fun x => !isSep x),
      dotdot)

/-- The calls logged between two worlds. -/
def newEvents (w w1 : World) : List Event := w1.trace.drop w.trace.length

/-- How often a handle was opened in a log. -/
def opensOf (h : Nat) (t : List Event) : Nat :=
  t.count (Event.openPart h) +
    (t.filter (fun e => match e with
      | Event.create _ (some h1) => h1 == h
      | _ => false)).length

/-- How often a handle was closed in a log. -/
def closesOf (h : Nat) (t : List Event) : Nat := t.count (Event.close h)

/-- The file name (as `Part.FileName` gives it) and the content of the
first file part of a body sent under a given field name. -/
def firstFilePart : List Part → Str → Option (Str × Bytes)
  | [], _ => none
  | p :: ps, key =>
    if p.name ≠ [] ∧ p.FileName ≠ [] ∧ (p.name == key) = true then some (p.FileName, p.content)
    else firstFilePart ps key

/-- A world in which `uploads/a.txt` already holds five bytes. -/
def World.withOld : World :=
  { World.empty with
    files := fun p => if p = "uploads/a.txt".toList then some [1, 2, 3, 4, 5] else none }

/-- A `GET` request without a body. -/
def getRequest : Request :=
  { Method := "GET".toList, query := [], body := none }

/-- A `POST` whose multipart body holds one plain value and no file. -/
def postNoFile : Request :=
  { Method := "POST".toList, query := [],
    body := some [{ Header := [("Content-Disposition".toList,
                      ["form-data; name=note".toList])],
                    name := "note".toList, filename := [], content := [120] }] }

/-! ## The loop of `filepath.Clean` -/

theorem length_dropWhile_le (p : Char → Bool) (l : Str) : (l.dropWhile p).length ≤ l.length := by
  induction l with
  | nil => simp
  | cons a t ih =>
    rw [List.dropWhile_cons]
    split
    · exact Nat.le_succ_of_le ih
    · exact Nat.le_refl _

theorem length_dropWhile_notSep (c : Char) (t : Str) (hc : isSep c = false) :
    ((c :: t).dropWhile (fun x => !isSep x)).length ≤ t.length := by
  rw [List.dropWhile_cons]
  simp only [hc, Bool.not_false, if_true]
  exact length_dropWhile_le _ t

theorem cleanLoop_fuel (rooted : Bool) :
    ∀ (f1 f2 : Nat) (rest out : Str) (dd : Nat), rest.length ≤ f1 → rest.length ≤ f2 →
      cleanLoop rooted f1 rest out dd = cleanLoop rooted f2 rest out dd := by
  intro f1
  induction f1 with
  | zero =>
    intro f2 rest out dd h1 _
    have : rest = [] := List.length_eq_zero.mp (Nat.le_zero.mp h1)
    subst this
    cases f2 <;> simp [cleanLoop]
  | succ n ih =>
    intro f2 rest out dd h1 h2
    cases rest with
    | nil => cases f2 <;> simp [cleanLoop]
    | cons c t =>
      cases f2 with
      | zero => simp at h2
      | succ m =>
        have ht1 : t.length ≤ n := by simpa using h1
        have ht2 : t.length ≤ m := by simpa using h2
        have htl : t.tail.length ≤ t.length := by simp
        simp only [cleanLoop]
        have hdw : isSep c = false → ((c :: t).dropWhile (fun x => !isSep x)).length ≤ t.length :=
          length_dropWhile_notSep c t
        split_ifs with hs <;> apply ih <;> first | omega | (have hlen := hdw (by simpa using hs); omega)


theorem cleanLoop_step (rooted : Bool) (f : Nat) (c : Char) (rest out : Str) (dd : Nat) :
    cleanLoop rooted (f + 1) (c :: rest) out dd =
      cleanLoop rooted f (cleanStep rooted c rest out dd).1
        (cleanStep rooted c rest out dd).2.1 (cleanStep rooted c rest out dd).2.2 := by
  simp only [cleanLoop, cleanStep]
  split_ifs <;> rfl

theorem cleanStep_length (rooted : Bool) (c : Char) (rest out : Str) (dd : Nat) :
    (cleanStep rooted c rest out dd).1.length ≤ rest.length := by
  have hdw : isSep c = false →
      ((c :: rest).dropWhile (fun x => !isSep x)).length ≤ rest.length :=
    length_dropWhile_notSep c rest
  simp only [cleanStep]
  split_ifs with hs
  all_goals first
    | exact Nat.le_refl _
    | (show (List.tail rest).length ≤ rest.length
       simp)
    | (have hc : isSep c = false := by simpa using hs
       exact hdw hc)

theorem cleanRun_nil (rooted : Bool) (out : Str) (dd : Nat) :
    cleanRun rooted [] out dd = (out, dd) := by
  simp [cleanRun, cleanLoop]

theorem cleanRun_cons (rooted : Bool) (c : Char) (rest out : Str) (dd : Nat) :
    cleanRun rooted (c :: rest) out dd =
      cleanRun rooted (cleanStep rooted c rest out dd).1
        (cleanStep rooted c rest out dd).2.1 (cleanStep rooted c rest out dd).2.2 := by
  unfold cleanRun
  rw [List.length_cons, cleanLoop_step]
  exact cleanLoop_fuel rooted _ _ _ _ _ (cleanStep_length rooted c rest out dd) (Nat.le_refl _)

theorem cond_append (t q : Str) :
    (t ++ '/' :: q = [] ∨ isSep ((t ++ '/' :: q).headD 'x') = true) ↔
      (t = [] ∨ isSep (t.headD 'x') = true) := by
  cases t with
  | nil => simp [isSep]
  | cons a t => simp

theorem takeWhile_append_sep (l q : Str) :
    (l ++ '/' :: q).takeWhile (fun x => !isSep x) = l.takeWhile (fun x => !isSep x) := by
  induction l with
  | nil => simp [isSep]
  | cons a t ih =>
    simp only [List.cons_append, List.takeWhile_cons, ih]

theorem dropWhile_append_sep (l q : Str) :
    (l ++ '/' :: q).dropWhile (fun x => !isSep x) =
      l.dropWhile (fun x => !isSep x) ++ '/' :: q := by
  induction l with
  | nil => simp [isSep]
  | cons a t ih =>
    simp only [List.cons_append, List.dropWhile_cons, ih]
    split <;> rfl

theorem cleanStep_append (rooted : Bool) (c : Char) (t q out : Str) (dd : Nat) :
    cleanStep rooted c (t ++ '/' :: q) out dd =
      ((cleanStep rooted c t out dd).1 ++ '/' :: q,
        (cleanStep rooted c t out dd).2.1, (cleanStep rooted c t out dd).2.2) := by
  have hdw := dropWhile_append_sep (c :: t) q
  have htw := takeWhile_append_sep (c :: t) q
  simp only [List.cons_append] at hdw htw
  cases t with
  | nil =>
    simp only [cleanStep, List.nil_append, hdw, htw]
    split_ifs <;> simp_all [isSep]
  | cons a t =>
    have h1 := cond_append t q
    simp only [cleanStep, List.cons_append, hdw, htw, List.tail_cons, List.head?_cons,
      List.headD_cons, h1]
    split_ifs <;> simp_all


theorem cleanRun_append (rooted : Bool) :
    ∀ (n : Nat) (p q out : Str) (dd : Nat), p.length ≤ n →
      cleanRun rooted (p ++ '/' :: q) out dd =
        cleanRun rooted ('/' :: q) (cleanRun rooted p out dd).1 (cleanRun rooted p out dd).2 := by
  intro n
  induction n with
  | zero =>
    intro p q out dd h
    have : p = [] := List.length_eq_zero.mp (Nat.le_zero.mp h)
    subst this
    simp [cleanRun_nil]
  | succ n ih =>
    intro p q out dd h
    cases p with
    | nil => simp [cleanRun_nil]
    | cons c t =>
      rw [List.cons_append, cleanRun_cons, cleanStep_append, cleanRun_cons rooted c t]
      have hl := cleanStep_length rooted c t out dd
      have ht : t.length ≤ n := by simpa using h
      exact ih _ q _ _ (Nat.le_trans hl ht)

theorem all_notSep_takeWhile (b : Str) (h : b.all (fun x => !isSep x) = true) :
    b.takeWhile (fun x => !isSep x) = b ∧ b.dropWhile (fun x => !isSep x) = [] := by
  induction b with
  | nil => simp
  | cons a t ih =>
    simp only [List.all_cons, Bool.and_eq_true] at h
    have := ih h.2
    simp [List.takeWhile_cons, List.dropWhile_cons, h.1, this.1, this.2]

theorem cleanRun_normal (rooted : Bool) (b out : Str) (dd : Nat) (hb : normalSeg b = true) :
    cleanRun rooted b out dd =
      ((if (rooted = true ∧ out.length ≠ 1) ∨ (rooted = false ∧ out.length ≠ 0)
          then out ++ ['/'] else out) ++ b, dd) := by
  unfold normalSeg at hb
  simp only [Bool.and_eq_true, decide_eq_true_eq] at hb
  obtain ⟨⟨⟨h0, h1⟩, h2⟩, hall⟩ := hb
  have htd := all_notSep_takeWhile b hall
  cases b with
  | nil => exact absurd rfl h0
  | cons c t =>
    rw [cleanRun_cons]
    have hc : isSep c = false := by
      simp only [List.all_cons, Bool.and_eq_true] at hall
      simpa using hall.1
    have hstep : cleanStep rooted c t out dd =
        ([], (if (rooted = true ∧ out.length ≠ 1) ∨ (rooted = false ∧ out.length ≠ 0)
          then out ++ ['/'] else out) ++ c :: t, dd) := by
      have hA : ¬ (c = '.' ∧ (t = [] ∨ isSep (t.headD 'x') = true)) := by
        rintro ⟨rfl, ht | ht⟩
        · subst ht; exact h1 rfl
        · cases t with
          | nil => simp [isSep] at ht
          | cons a t =>
            simp only [List.all_cons, Bool.and_eq_true] at hall
            simp only [List.headD_cons] at ht
            simp [ht] at hall
      have hB : ¬ (c = '.' ∧ t.head? = some '.' ∧
          (t.tail = [] ∨ isSep (t.tail.headD 'x') = true)) := by
        rintro ⟨rfl, hh, ht⟩
        cases t with
        | nil => simp at hh
        | cons a t =>
          simp only [List.head?_cons, Option.some.injEq] at hh
          subst hh
          simp only [List.tail_cons] at ht
          rcases ht with ht | ht
          · subst ht; exact h2 rfl
          · cases t with
            | nil => simp [isSep] at ht
            | cons a t =>
              simp only [List.all_cons, Bool.and_eq_true] at hall
              simp only [List.headD_cons] at ht
              simp [ht] at hall
      simp only [cleanStep, hc, Bool.false_eq_true, if_false, hA, hB, htd.1, htd.2]
    rw [hstep]
    exact cleanRun_nil _ _ _

theorem cleanRun_sep (rooted : Bool) (q out : Str) (dd : Nat) :
    cleanRun rooted ('/' :: q) out dd = cleanRun rooted q out dd := by
  rw [cleanRun_cons]
  simp [cleanStep, isSep]

theorem Clean_cons (c : Char) (t : Str) :
    Clean (c :: t) =
      if isSep c = true then
        (if (cleanRun true t ['/'] 1).1.length = 0 then ['.'] else (cleanRun true t ['/'] 1).1)
      else
        (if (cleanRun false (c :: t) [] 0).1.length = 0 then ['.']
          else (cleanRun false (c :: t) [] 0).1) := by
  unfold Clean
  simp only [List.tail_cons, List.length_cons]
  by_cases hc : isSep c = true
  · simp only [hc, if_true]
    rw [cleanLoop_fuel true (t.length + 1) t.length t ['/'] 1 (Nat.le_succ _) (Nat.le_refl _)]
    rfl
  · simp only [hc]
    rfl


theorem backtrackW_ge (out : Str) (dd : Nat) : ∀ w, dd ≤ w → dd ≤ backtrackW out dd w := by
  intro w
  induction w with
  | zero => intro h; simpa [backtrackW] using h
  | succ n ih =>
    intro h
    simp only [backtrackW]
    split_ifs with hc
    · exact ih (by omega)
    · exact h

theorem cleanStep_rooted (c : Char) (rest out : Str) (dd : Nat)
    (h : dd = 1 ∧ out.head? = some '/') :
    (cleanStep true c rest out dd).2.2 = 1 ∧
      (cleanStep true c rest out dd).2.1.head? = some '/' := by
  obtain ⟨hdd, hout⟩ := h
  cases out with
  | nil => simp at hout
  | cons a o =>
    simp only [List.head?_cons, Option.some.injEq] at hout
    subst hout hdd
    simp only [cleanStep]
    have hbt : 1 < ('/' :: o).length →
        (List.take (backtrackW ('/' :: o) 1 (('/' :: o).length - 1)) ('/' :: o)).head? =
          some '/' := by
      intro h4
      have hge := backtrackW_ge ('/' :: o) 1 (('/' :: o).length - 1)
        (by simp only [List.length_cons] at h4 ⊢; omega)
      obtain ⟨k, hk⟩ : ∃ k, backtrackW ('/' :: o) 1 (('/' :: o).length - 1) = k + 1 :=
        ⟨_, (Nat.sub_add_cancel hge).symm⟩
      rw [hk]
      rfl
    split_ifs with h1 h2 h3 h4
    all_goals first
      | exact ⟨rfl, rfl⟩
      | exact ⟨rfl, hbt h4⟩
      | (exfalso; simp_all)

theorem cleanRun_rooted :
    ∀ (n : Nat) (p out : Str) (dd : Nat), p.length ≤ n → dd = 1 ∧ out.head? = some '/' →
      (cleanRun true p out dd).1.head? = some '/' := by
  intro n
  induction n with
  | zero =>
    intro p out dd h hinv
    have : p = [] := List.length_eq_zero.mp (Nat.le_zero.mp h)
    subst this
    simpa [cleanRun_nil] using hinv.2
  | succ n ih =>
    intro p out dd h hinv
    cases p with
    | nil => simpa [cleanRun_nil] using hinv.2
    | cons c t =>
      rw [cleanRun_cons]
      have hl := cleanStep_length true c t out dd
      have ht : t.length ≤ n := by simpa using h
      exact ih _ _ _ (Nat.le_trans hl ht) (cleanStep_rooted c t out dd hinv)

/-- The destination of a normal element joined to a directory. -/
theorem clean_append_normal (d b : Str) (hd : d ≠ []) (hb : normalSeg b = true) :
    (Clean d = ['.'] ∧ Clean (d ++ '/' :: b) = b) ∨
    (Clean d = ['/'] ∧ Clean (d ++ '/' :: b) = '/' :: b) ∨
    Clean (d ++ '/' :: b) = Clean d ++ '/' :: b := by
  have hbne : b ≠ [] := by
    intro h; subst h; simp [normalSeg] at hb
  cases d with
  | nil => exact absurd rfl hd
  | cons c t =>
    rw [List.cons_append, Clean_cons c (t ++ '/' :: b), Clean_cons c t]
    by_cases hc : isSep c = true
    · simp only [hc, if_true]
      rw [cleanRun_append true t.length t b ['/'] 1 (Nat.le_refl _), cleanRun_sep,
        cleanRun_normal true b _ _ hb]
      have hinv := cleanRun_rooted t.length t ['/'] 1 (Nat.le_refl _) ⟨rfl, rfl⟩
      generalize (cleanRun true t ['/'] 1).1 = o at hinv ⊢
      cases o with
      | nil => simp at hinv
      | cons a o =>
        simp only [List.head?_cons, Option.some.injEq] at hinv
        subst hinv
        cases o with
        | nil => right; left; simp [hbne]
        | cons a2 o => right; right; simp
    · simp only [hc]
      rw [← List.cons_append, cleanRun_append false (c :: t).length (c :: t) b [] 0 (Nat.le_refl _),
        cleanRun_sep, cleanRun_normal false b _ _ hb]
      generalize (cleanRun false (c :: t) [] 0).1 = o
      cases o with
      | nil => left; simp [hbne]
      | cons a o => right; right; simp

theorem join_normal (d b : Str) (hd : d ≠ []) (hb : normalSeg b = true) :
    (Clean d = ['.'] ∧ Join [d, b] = b) ∨
    (Clean d = ['/'] ∧ Join [d, b] = '/' :: b) ∨
    Join [d, b] = Clean d ++ '/' :: b := by
  have h : Join [d, b] = Clean (d ++ '/' :: b) := by
    simp [Join, hd, List.intercalate, List.intersperse]
  rw [h]
  exact clean_append_normal d b hd hb

/-! ## `filepath.Base` -/


theorem Base_eq (p : Str) (hp : p ≠ []) :
    Base p =
      if ((p.reverse.dropWhile isSep).takeWhile (fun x => !isSep x)).reverse = [] then ['/']
      else ((p.reverse.dropWhile isSep).takeWhile (fun x => !isSep x)).reverse := by
  unfold Base
  simp only [hp, if_false, List.reverse_reverse]

theorem takeWhile_all_notSep (l : Str) :
    ((l.takeWhile (fun x => !isSep x)).reverse).all (fun x => !isSep x) = true := by
  rw [List.all_reverse, List.all_eq_true]
  intro x hx
  exact List.mem_takeWhile_imp (p := fun x => !isSep x) hx

theorem normalSeg_or (b : Str) (hne : b ≠ []) (hall : b.all (fun x => !isSep x) = true) :
    b = ['.'] ∨ b = ['.', '.'] ∨ normalSeg b = true := by
  by_cases h1 : b = ['.']
  · exact Or.inl h1
  · by_cases h2 : b = ['.', '.']
    · exact Or.inr (Or.inl h2)
    · right; right
      simp [normalSeg, hne, h1, h2, hall]

theorem Base_shape (p : Str) :
    Base p = ['/'] ∨ Base p = ['.'] ∨ Base p = ['.', '.'] ∨ normalSeg (Base p) = true := by
  by_cases hp : p = []
  · subst hp; right; left; rfl
  · rw [Base_eq p hp]
    split_ifs with h
    · exact Or.inl rfl
    · exact Or.inr (normalSeg_or _ h (takeWhile_all_notSep _))

theorem dropWhile_sep_ne_nil (l : Str) (h : ∃ c ∈ l, isSep c = false) :
    (l.dropWhile isSep).takeWhile (fun x => !isSep x) ≠ [] := by
  induction l with
  | nil => simp at h
  | cons a t ih =>
    by_cases ha : isSep a = true
    · rw [List.dropWhile_cons_of_pos ha]
      apply ih
      obtain ⟨c, hc, hs⟩ := h
      rcases List.mem_cons.mp hc with rfl | hc
      · simp [ha] at hs
      · exact ⟨c, hc, hs⟩
    · rw [List.dropWhile_cons_of_neg ha]
      simp [List.takeWhile_cons, ha]

theorem Base_of_notSep (p : Str) (h : ∃ c ∈ p, isSep c = false) :
    Base p ≠ [] ∧ (Base p).all (fun x => !isSep x) = true ∧
    ∃ pre suf, p = pre ++ Base p ++ suf ∧ suf.all isSep = true ∧
      (pre = [] ∨ pre.getLast? = some '/') := by
  have hp : p ≠ [] := by
    rintro rfl
    simp at h
  have hne := dropWhile_sep_ne_nil p.reverse (by
    obtain ⟨c, hc, hs⟩ := h
    exact ⟨c, List.mem_reverse.mpr hc, hs⟩)
  have hne2 : ((p.reverse.dropWhile isSep).takeWhile (fun x => !isSep x)).reverse ≠ [] := by
    simpa using hne
  rw [Base_eq p hp, if_neg hne2]
  refine ⟨hne2, takeWhile_all_notSep _, ?_⟩
  refine ⟨((p.reverse.dropWhile isSep).dropWhile (fun x => !isSep x)).reverse,
    (p.reverse.takeWhile isSep).reverse, ?_, ?_, ?_⟩
  · rw [← List.reverse_append, List.takeWhile_append_dropWhile, ← List.reverse_append,
      List.takeWhile_append_dropWhile, List.reverse_reverse]
  · rw [List.all_reverse, List.all_eq_true]
    intro x hx
    exact List.mem_takeWhile_imp hx
  · generalize p.reverse.dropWhile isSep = X
    rw [List.getLast?_reverse]
    cases hX : X.dropWhile (fun x => !isSep x) with
    | nil => left; rfl
    | cons a t =>
      right
      have := List.head?_dropWhile_not (fun x => !isSep x) X
      rw [hX] at this
      simp only [List.head?_cons, Bool.not_eq_false', ] at this
      simp only [List.head?_cons, Option.some.injEq]
      simpa [isSep] using this

/-! ## The ways out of `uploadHandler` -/

theorem exit_method (env : Env) (r : Request) (w : World) (hm : r.Method ≠ "POST".toList) :
    uploadHandler env r w = httpError w "Invalid request method".toList 405 := by
  unfold uploadHandler
  rw [if_neg hm]

theorem exit_parse (env : Env) (r : Request) (w w1 : World)
    (hm : r.Method = "POST".toList)
    (hp : ParseMultipartForm env r w (10 <<< 30) = (none, w1)) :
    uploadHandler env r w = httpError w1 "Unable to parse form".toList 400 := by
  unfold uploadHandler
  rw [if_pos hm, hp]

theorem exit_formFile (env : Env) (r : Request) (w w1 w2 : World) (form : Form)
    (hm : r.Method = "POST".toList)
    (hp : ParseMultipartForm env r w (10 <<< 30) = (some form, w1))
    (hf : FormFile env w1 form "file".toList = (none, w2)) :
    uploadHandler env r w = httpError w2 "Unable to retrieve file".toList 400 := by
  unfold uploadHandler
  rw [if_pos hm, hp]
  simp only [hf]

theorem exit_mkdir (env : Env) (r : Request) (w w1 w2 w3 : World) (form : Form)
    (file : Nat) (hdr : FileHeader)
    (hm : r.Method = "POST".toList)
    (hp : ParseMultipartForm env r w (10 <<< 30) = (some form, w1))
    (hf : FormFile env w1 form "file".toList = (some (file, hdr), w2))
    (hd : MkdirAll env w2 (uploadPathOf r) = (false, w3)) :
    uploadHandler env r w =
      Close file (httpError w3 "Unable to create upload directory".toList 500) := by
  unfold uploadHandler
  rw [if_pos hm, hp]
  simp only [hf, hd]

theorem exit_create (env : Env) (r : Request) (w w1 w2 w3 w4 : World) (form : Form)
    (file : Nat) (hdr : FileHeader)
    (hm : r.Method = "POST".toList)
    (hp : ParseMultipartForm env r w (10 <<< 30) = (some form, w1))
    (hf : FormFile env w1 form "file".toList = (some (file, hdr), w2))
    (hd : MkdirAll env w2 (uploadPathOf r) = (true, w3))
    (hc : Create env w3 (destPathOf r hdr.Filename) = (none, w4)) :
    uploadHandler env r w = Close file (httpError w4 "Unable to save file".toList 500) := by
  unfold uploadHandler
  unfold destPathOf at hc
  rw [if_pos hm, hp]
  simp only [hf, hd, hc]

theorem exit_copy (env : Env) (r : Request) (w w1 w2 w3 w4 w5 : World) (form : Form)
    (file : Nat) (hdr : FileHeader) (dst : File)
    (hm : r.Method = "POST".toList)
    (hp : ParseMultipartForm env r w (10 <<< 30) = (some form, w1))
    (hf : FormFile env w1 form "file".toList = (some (file, hdr), w2))
    (hd : MkdirAll env w2 (uploadPathOf r) = (true, w3))
    (hc : Create env w3 (destPathOf r hdr.Filename) = (some dst, w4))
    (hy : ioCopy env w4 dst hdr.content = (false, w5)) :
    uploadHandler env r w =
      Close file (Close dst.h (httpError w5 "Unable to save file".toList 500)) := by
  unfold uploadHandler
  unfold destPathOf at hc
  rw [if_pos hm, hp]
  simp only [hf, hd, hc, hy]

theorem exit_ok (env : Env) (r : Request) (w w1 w2 w3 w4 w5 : World) (form : Form)
    (file : Nat) (hdr : FileHeader) (dst : File)
    (hm : r.Method = "POST".toList)
    (hp : ParseMultipartForm env r w (10 <<< 30) = (some form, w1))
    (hf : FormFile env w1 form "file".toList = (some (file, hdr), w2))
    (hd : MkdirAll env w2 (uploadPathOf r) = (true, w3))
    (hc : Create env w3 (destPathOf r hdr.Filename) = (some dst, w4))
    (hy : ioCopy env w4 dst hdr.content = (true, w5)) :
    uploadHandler env r w =
      Close file (Close dst.h (Fprintf w5
        ("File uploaded successfully to: ".toList ++ destPathOf r hdr.Filename))) := by
  unfold uploadHandler
  unfold destPathOf at hc
  rw [if_pos hm, hp]
  simp only [hf, hd, hc, hy, destPathOf]

/-! ## What each call does to the world -/

theorem parse_world (env : Env) (r : Request) (w : World) (m : Nat) :
    (ParseMultipartForm env r w m).2 = { w with trace := w.trace ++ [Event.parseForm m] } := by
  unfold ParseMultipartForm
  cases r.body <;> rfl

theorem formFile_none (env : Env) (w w2 : World) (form : Form) (key : Str)
    (h : FormFile env w form key = (none, w2)) : w2 = w := by
  unfold FormFile at h
  split at h
  · exact (Prod.mk.inj h).2.symm
  · split at h
    · exact (Prod.mk.inj h).2.symm
    · simp at h

theorem formFile_some (env : Env) (w w2 : World) (form : Form) (key : Str) (file : Nat)
    (hdr : FileHeader) (h : FormFile env w form key = (some (file, hdr), w2)) :
    file = w.next ∧
    w2 = { w with handles := w.next :: w.handles, next := w.next + 1,
                  trace := w.trace ++ [Event.openPart w.next] } := by
  unfold FormFile at h
  split at h
  · simp at h
  · split at h
    · simp at h
    · simp only [Prod.mk.injEq, Option.some.injEq] at h
      exact ⟨h.1.1.symm, h.2.symm⟩

theorem mkdirAll_false (env : Env) (w w3 : World) (p : Str)
    (h : MkdirAll env w p = (false, w3)) :
    w3 = { w with trace := w.trace ++ [Event.mkdirAll p false] } := by
  unfold MkdirAll at h
  split at h
  · exact (Prod.mk.inj h).2.symm
  · simp at h

theorem mkdirAll_true (env : Env) (w w3 : World) (p : Str)
    (h : MkdirAll env w p = (true, w3)) :
    w3 = { w with dirs := withParents (Clean p) ++ w.dirs,
                  trace := w.trace ++ [Event.mkdirAll p true] } := by
  unfold MkdirAll at h
  split at h
  · simp at h
  · exact (Prod.mk.inj h).2.symm

theorem create_none (env : Env) (w w4 : World) (p : Str)
    (h : Create env w p = (none, w4)) :
    w4 = { w with trace := w.trace ++ [Event.create p none] } := by
  unfold Create at h
  split at h
  · exact (Prod.mk.inj h).2.symm
  · simp at h

theorem create_some (env : Env) (w w4 : World) (p : Str) (dst : File)
    (h : Create env w p = (some dst, w4)) :
    isDir w p = false ∧ dst = ⟨w.next, Clean p⟩ ∧
    w4 = { w with files := Function.update w.files (Clean p) (some []),
                  handles := w.next :: w.handles, next := w.next + 1,
                  trace := w.trace ++ [Event.create p (some w.next)] } := by
  unfold Create at h
  split at h
  · simp at h
  · rename_i hc
    simp only [Prod.mk.injEq, Option.some.injEq] at h
    simp only [Bool.or_eq_true, not_or, Bool.not_eq_true] at hc
    exact ⟨hc.2, h.1.symm, h.2.symm⟩

theorem ioCopy_world (env : Env) (w : World) (dst : File) (content : Bytes) :
    ioCopy env w dst content =
      (env.copyErr.isNone,
        { w with files := Function.update w.files dst.path
                   (some ((w.files dst.path).getD [] ++
                     (match env.copyErr with
                      | none => content
                      | some k => content.take k))),
                 trace := w.trace ++ [Event.write dst.h
                   (match env.copyErr with
                      | none => content
                      | some k => content.take k).length] }) := rfl


theorem parse_eq (env : Env) (r : Request) (w w1 : World) (m : Nat) (o : Option Form)
    (h : ParseMultipartForm env r w m = (o, w1)) :
    w1 = { w with trace := w.trace ++ [Event.parseForm m] } := by
  have := parse_world env r w m
  rw [h] at this
  exact this

theorem readForm_part_limit (env : Env) :
    ∀ (parts : List Part) (n : Nat) (a b : Int), n < parts.length →
      readForm env parts n a b = none := by
  intro parts
  induction parts with
  | nil => intro n a b h; simp at h
  | cons p ps ih =>
    intro n a b h
    simp only [readForm]
    by_cases hn : n = 0
    · simp [hn]
    · have hlt : n - 1 < ps.length := by
        simp only [List.length_cons] at h
        omega
      simp only [hn, if_false]
      split_ifs <;> simp [ih _ _ _ hlt]

theorem readForm_find (env : Env) (key : Str) :
    ∀ (parts : List Part) (n : Nat) (a b : Int) (form : Form),
      readForm env parts n a b = some form →
      (form.File.find? (fun kv => kv.1 == key)).map (fun kv => (kv.2.Filename, kv.2.content)) =
        firstFilePart parts key := by
  intro parts
  induction parts with
  | nil =>
    intro n a b form h
    simp only [readForm, Option.some.injEq] at h
    subst h
    rfl
  | cons p ps ih =>
    intro n a b form h
    have hmap : ∀ (o : Option Form) (g : Form → Form), o.map g = some form →
        ∃ f, o = some f ∧ form = g f := by
      intro o g ho
      cases o with
      | none => simp at ho
      | some f => exact ⟨f, rfl, by simpa using ho.symm⟩
    simp only [readForm] at h
    simp only [firstFilePart]
    split_ifs at h with h1 h2 h3 h4 h5 h6 h7 h8
    · rw [if_neg (by simp [h2])]
      exact ih _ _ _ form h
    · obtain ⟨f, hf, rfl⟩ := hmap _ _ h
      rw [if_neg (by simp [h4])]
      exact ih _ _ _ f hf
    · obtain ⟨f, hf, rfl⟩ := hmap _ _ h
      simp only [List.find?_cons]
      by_cases hk : (p.name == key) = true
      · simp [hk, h2, h4]
      · rw [if_neg (by simp [hk])]
        simp only [hk]
        exact ih _ _ _ f hf
    · obtain ⟨f, hf, rfl⟩ := hmap _ _ h
      simp only [List.find?_cons]
      by_cases hk : (p.name == key) = true
      · simp [hk, h2, h4]
      · rw [if_neg (by simp [hk])]
        simp only [hk]
        exact ih _ _ _ f hf

theorem formFile_content (env : Env) (r : Request) (w w1 w2 : World) (m : Nat)
    (parts : List Part) (form : Form) (key : Str) (file : Nat) (hdr : FileHeader)
    (hbody : r.body = some parts)
    (hp : ParseMultipartForm env r w m = (some form, w1))
    (hf : FormFile env w1 form key = (some (file, hdr), w2)) :
    firstFilePart parts key = some (hdr.Filename, hdr.content) := by
  unfold ParseMultipartForm at hp
  rw [hbody] at hp
  simp only [Prod.mk.injEq] at hp
  rw [← readForm_find env key parts _ _ _ form hp.1]
  unfold FormFile at hf
  split at hf
  · simp at hf
  · rename_i kv hfind
    split at hf
    · simp at hf
    · simp only [Prod.mk.injEq, Option.some.injEq] at hf
      rw [hfind, ← hf.1.2]
      rfl

/-! ## The claims -/

/-- C4. A request to `/upload` whose method is not `POST` is answered with
status 405 and has no other effect: the form is not parsed (the log of calls
is unchanged), no directory and no file is created or written, no handle is
opened, and the files and directories afterwards are those before. -/
theorem uploadHandler_rejects_non_post (env : Env) (r : Request) (w : World)
    (hm : r.Method ≠ "POST".toList) (hs : w.status = []) :
    (uploadHandler env r w).status = [405] ∧
    (uploadHandler env r w).files = w.files ∧
    (uploadHandler env r w).dirs = w.dirs ∧
    (uploadHandler env r w).handles = w.handles ∧
    (uploadHandler env r w).next = w.next ∧
    (uploadHandler env r w).trace = w.trace := by
  rw [exit_method env r w hm]
  refine ⟨?_, rfl, rfl, rfl, rfl, rfl⟩
  simp [httpError, hs]

/-- A `GET` on a world that already holds a file. -/
theorem uploadHandler_rejects_non_post_witness :
    getRequest.Method ≠ "POST".toList ∧
    (uploadHandler Env.ok getRequest World.withOld).status = [405] ∧
    (uploadHandler Env.ok getRequest World.withOld).trace = [] :=
  have h := uploadHandler_rejects_non_post Env.ok getRequest World.withOld (by decide) rfl
  ⟨by decide, h.1, h.2.2.2.2.2⟩

/-- C8. When the multipart body of a `POST` parses but `FormFile("file")`
fails (the field is absent, or the stored file cannot be opened), the answer
is status 400, the only call made is the parse, and files, directories and
open handles are unchanged. -/
theorem uploadHandler_missing_file (env : Env) (r : Request) (w w1 w2 : World) (form : Form)
    (hm : r.Method = "POST".toList) (hs : w.status = [])
    (hp : ParseMultipartForm env r w (10 <<< 30) = (some form, w1))
    (hf : FormFile env w1 form "file".toList = (none, w2)) :
    (uploadHandler env r w).status = [400] ∧
    (uploadHandler env r w).files = w.files ∧
    (uploadHandler env r w).dirs = w.dirs ∧
    (uploadHandler env r w).handles = w.handles ∧
    newEvents w (uploadHandler env r w) = [Event.parseForm (10 <<< 30)] := by
  rw [exit_formFile env r w w1 w2 form hm hp hf]
  have h1 := parse_eq env r w w1 _ _ hp
  have h2 := formFile_none env w1 w2 form _ hf
  subst h2 h1
  simp [httpError, hs, newEvents]

/-- A `POST` whose body has a plain value and no `file` part. -/
theorem uploadHandler_missing_file_witness :
    postNoFile.body.map (fun parts => firstFilePart parts "file".toList) = some none ∧
    (uploadHandler Env.ok postNoFile World.withOld).status = [400] ∧
    (uploadHandler Env.ok postNoFile World.withOld).files = World.withOld.files :=
  have h := uploadHandler_missing_file Env.ok postNoFile World.withOld _ _ _ rfl rfl rfl rfl
  ⟨rfl, h.1, h.2.1⟩

/-- C10. On every way out of `uploadHandler` the set of open handles is the
one before the request, and among the calls the handler made every handle
is closed exactly as often as it was opened, which is at most once: the
stream returned by `FormFile` and the file returned by `os.Create` are each
closed exactly once, and nothing else is closed. -/
theorem uploadHandler_closes_handles (env : Env) (r : Request) (w : World) :
    (uploadHandler env r w).handles = w.handles ∧
    ∀ h, closesOf h (newEvents w (uploadHandler env r w)) =
        opensOf h (newEvents w (uploadHandler env r w)) ∧
      opensOf h (newEvents w (uploadHandler env r w)) ≤ 1 := by
  by_cases hm : r.Method = "POST".toList
  · rcases hp : ParseMultipartForm env r w (10 <<< 30) with ⟨_ | form, w1⟩
    · rw [exit_parse env r w w1 hm hp]
      have h1 := parse_eq env r w w1 _ _ hp
      subst h1
      simp [httpError, newEvents, closesOf, opensOf]
    · have h1 := parse_eq env r w w1 _ _ hp
      rcases hf : FormFile env w1 form "file".toList with ⟨_ | ⟨file, hdr⟩, w2⟩
      · rw [exit_formFile env r w w1 w2 form hm hp hf]
        have h2 := formFile_none env w1 w2 form _ hf
        subst h2 h1
        simp [httpError, newEvents, closesOf, opensOf]
      · obtain ⟨hfile, h2⟩ := formFile_some env w1 w2 form _ file hdr hf
        rcases hd : MkdirAll env w2 (uploadPathOf r) with ⟨_ | _, w3⟩
        · rw [exit_mkdir env r w w1 w2 w3 form file hdr hm hp hf hd]
          have h3 := mkdirAll_false env w2 w3 _ hd
          subst h3 h2 h1 hfile
          refine ⟨by simp [httpError, Close], fun h => ?_⟩
          simp [httpError, Close, newEvents, closesOf, opensOf, List.count_cons]
          split_ifs <;> simp
        · have h3 := mkdirAll_true env w2 w3 _ hd
          rcases hc : Create env w3 (destPathOf r hdr.Filename) with ⟨_ | dst, w4⟩
          · rw [exit_create env r w w1 w2 w3 w4 form file hdr hm hp hf hd hc]
            have h4 := create_none env w3 w4 _ hc
            subst h4 h3 h2 h1 hfile
            refine ⟨by simp [httpError, Close], fun h => ?_⟩
            simp [httpError, Close, newEvents, closesOf, opensOf, List.count_cons]
            split_ifs <;> simp
          · obtain ⟨-, hdst, h4⟩ := create_some env w3 w4 _ dst hc
            rcases hy : ioCopy env w4 dst hdr.content with ⟨_ | _, w5⟩
            · rw [exit_copy env r w w1 w2 w3 w4 w5 form file hdr dst hm hp hf hd hc hy]
              have h5 := ioCopy_world env w4 dst hdr.content
              rw [hy] at h5
              have h5 := (Prod.mk.inj h5).2
              subst h5 h4 hdst h3 h2 h1 hfile
              refine ⟨by simp [httpError, Close], fun h => ?_⟩
              simp [httpError, Close, newEvents, closesOf, opensOf, List.count_cons, List.filter_cons]
              split_ifs <;> simp_all
            · rw [exit_ok env r w w1 w2 w3 w4 w5 form file hdr dst hm hp hf hd hc hy]
              have h5 := ioCopy_world env w4 dst hdr.content
              rw [hy] at h5
              have h5 := (Prod.mk.inj h5).2
              subst h5 h4 hdst h3 h2 h1 hfile
              refine ⟨by simp [Fprintf, Close], fun h => ?_⟩
              simp [Fprintf, Close, newEvents, closesOf, opensOf, List.count_cons, List.filter_cons]
              split_ifs <;> simp_all
  · rw [exit_method env r w hm]
    simp [httpError, newEvents, closesOf, opensOf]

/-- C5. For a `POST` whose body parses, whose `file` part opens, and for
which directory creation, file creation and the copy all succeed, the stream
copied is the first `file` part of the body, and afterwards the file at the
destination path holds exactly the uploaded bytes (so its byte count is that
of the upload), whatever the file held before. -/
theorem uploadHandler_stores_content (env : Env) (r : Request) (w w1 w2 w3 w4 : World)
    (parts : List Part) (form : Form) (file : Nat) (hdr : FileHeader) (dst : File)
    (hm : r.Method = "POST".toList)
    (hbody : r.body = some parts)
    (hp : ParseMultipartForm env r w (10 <<< 30) = (some form, w1))
    (hf : FormFile env w1 form "file".toList = (some (file, hdr), w2))
    (hd : MkdirAll env w2 (uploadPathOf r) = (true, w3))
    (hc : Create env w3 (destPathOf r hdr.Filename) = (some dst, w4))
    (hy : env.copyErr = none) :
    firstFilePart parts "file".toList = some (hdr.Filename, hdr.content) ∧
    readFile (uploadHandler env r w) (destPathOf r hdr.Filename) = some hdr.content ∧
    (readFile (uploadHandler env r w) (destPathOf r hdr.Filename)).map List.length =
      some hdr.content.length := by
  have hfirst := formFile_content env r w w1 w2 _ parts form _ file hdr hbody hp hf
  have hcopy := ioCopy_world env w4 dst hdr.content
  rw [hy] at hcopy
  have hres := exit_ok env r w w1 w2 w3 w4 _ form file hdr dst hm hp hf hd hc hcopy
  obtain ⟨-, hdst, h4⟩ := create_some env w3 w4 _ dst hc
  have hread : readFile (uploadHandler env r w) (destPathOf r hdr.Filename) =
      some hdr.content := by
    rw [hres]
    subst h4 hdst
    simp [readFile, Close, Fprintf]
  exact ⟨hfirst, hread, by rw [hread]; rfl⟩

/-- An upload of two bytes over an existing file of five bytes, and an empty upload. -/
theorem uploadHandler_stores_content_witness :
    World.withOld.files "uploads/a.txt".toList = some [1, 2, 3, 4, 5] ∧
    readFile (uploadHandler Env.ok (postFile [] "a.txt".toList [104, 105]) World.withOld)
      "uploads/a.txt".toList = some [104, 105] ∧
    readFile (uploadHandler Env.ok (postFile [] "empty".toList []) World.withOld)
      "uploads/empty".toList = some [] :=
  ⟨by decide,
    (uploadHandler_stores_content Env.ok (postFile [] "a.txt".toList [104, 105]) World.withOld
      _ _ _ _ _ _ _ _ _ rfl rfl rfl rfl rfl rfl rfl).2.1,
    (uploadHandler_stores_content Env.ok (postFile [] "empty".toList []) World.withOld
      _ _ _ _ _ _ _ _ _ rfl rfl rfl rfl rfl rfl rfl).2.1⟩

/-- C9. For a `POST` that reaches directory creation (the body parsed and
the `file` stream is open) exactly one status is written, 200 or 500.  If
`os.MkdirAll` fails the status is 500 and `os.Create` is not called; if
`os.Create` fails the status is 500; if `io.Copy` returns an error, after
any number of bytes, the status is 500; and the status is 200 only if
directory creation, file creation and the copy all succeeded, in which case
the destination file holds every byte of the upload. -/
theorem uploadHandler_io_status (env : Env) (r : Request) (w w1 w2 : World)
    (form : Form) (file : Nat) (hdr : FileHeader)
    (hm : r.Method = "POST".toList) (hs : w.status = [])
    (hp : ParseMultipartForm env r w (10 <<< 30) = (some form, w1))
    (hf : FormFile env w1 form "file".toList = (some (file, hdr), w2)) :
    (uploadHandler env r w).status.length = 1 ∧
    ((uploadHandler env r w).status = [200] ∨ (uploadHandler env r w).status = [500]) ∧
    ((MkdirAll env w2 (uploadPathOf r)).1 = false →
      (uploadHandler env r w).status = [500] ∧
      ∀ p h, Event.create p h ∉ newEvents w (uploadHandler env r w)) ∧
    ((MkdirAll env w2 (uploadPathOf r)).1 = true →
      (Create env (MkdirAll env w2 (uploadPathOf r)).2 (destPathOf r hdr.Filename)).1 = none →
      (uploadHandler env r w).status = [500]) ∧
    (env.copyErr ≠ none → (uploadHandler env r w).status = [500]) ∧
    ((uploadHandler env r w).status = [200] →
      (MkdirAll env w2 (uploadPathOf r)).1 = true ∧
      (Create env (MkdirAll env w2 (uploadPathOf r)).2 (destPathOf r hdr.Filename)).1 ≠ none ∧
      env.copyErr = none ∧
      readFile (uploadHandler env r w) (destPathOf r hdr.Filename) = some hdr.content) := by
  have h1 := parse_eq env r w w1 _ _ hp
  obtain ⟨hfile, h2⟩ := formFile_some env w1 w2 form _ file hdr hf
  rcases hd : MkdirAll env w2 (uploadPathOf r) with ⟨_ | _, w3⟩
  · rw [exit_mkdir env r w w1 w2 w3 form file hdr hm hp hf hd]
    have h3 := mkdirAll_false env w2 w3 _ hd
    subst h3 h2 h1 hfile
    simp [httpError, Close, hs, newEvents]
  · have h3 := mkdirAll_true env w2 w3 _ hd
    rcases hc : Create env w3 (destPathOf r hdr.Filename) with ⟨_ | dst, w4⟩
    · rw [exit_create env r w w1 w2 w3 w4 form file hdr hm hp hf hd hc]
      simp [httpError, Close, h3, h2, h1, hs, create_none env w3 w4 _ hc]
    · obtain ⟨-, hdst, h4⟩ := create_some env w3 w4 _ dst hc
      have h5 := ioCopy_world env w4 dst hdr.content
      cases hy : env.copyErr with
      | some k =>
        rw [hy] at h5
        rw [exit_copy env r w w1 w2 w3 w4 _ form file hdr dst hm hp hf hd hc h5]
        simp [httpError, Close, h4, h3, h2, h1, hs]
      | none =>
        rw [hy] at h5
        rw [exit_ok env r w w1 w2 w3 w4 _ form file hdr dst hm hp hf hd hc h5]
        subst h4 hdst h3 h2 h1
        simp [Fprintf, Close, hs, readFile]

/-- The copy breaks after one of two bytes: status 500, one byte on disk. -/
theorem uploadHandler_io_status_witness :
    (uploadHandler { Env.ok with copyErr := some 1 } (postFile [] "a.txt".toList [104, 105])
      World.empty).status = [500] ∧
    readFile (uploadHandler { Env.ok with copyErr := some 1 }
      (postFile [] "a.txt".toList [104, 105]) World.empty) "uploads/a.txt".toList = some [104] :=
  ⟨(uploadHandler_io_status { Env.ok with copyErr := some 1 }
      (postFile [] "a.txt".toList [104, 105]) World.empty _ _ _ _ _ rfl rfl rfl rfl).2.2.2.2.1
      (by decide),
    by decide⟩

theorem isDir_of_mem (w : World) (p : Str) (h : Clean p ∈ w.dirs) : isDir w p = true := by
  simp [isDir, h]

theorem isDir_dot (w : World) : isDir w ['.'] = true := by
  have h : Clean ['.'] = ['.'] := by decide
  simp [isDir, h]

theorem uploadPathOf_default (r : Request) (hq : queryGet r.query "path".toList = []) :
    uploadPathOf r = "./uploads".toList := by
  unfold uploadPathOf
  exact if_pos hq

theorem join_uploads (f : Str) :
    Join ["./uploads".toList, Base f] = "uploads".toList ∨
    Join ["./uploads".toList, Base f] = ['.'] ∨
    (normalSeg (Base f) = true ∧
      Join ["./uploads".toList, Base f] = "uploads/".toList ++ Base f) := by
  rcases Base_shape f with h | h | h | h
  · left; rw [h]; decide
  · left; rw [h]; decide
  · right; left; rw [h]; decide
  · right; right
    refine ⟨h, ?_⟩
    have hc : Clean "./uploads".toList = "uploads".toList := by decide
    rcases join_normal "./uploads".toList (Base f) (by decide) h with h1 | h1 | h1
    · rw [hc] at h1; exact absurd h1.1 (by decide)
    · rw [hc] at h1; exact absurd h1.1 (by decide)
    · rw [h1, hc]; rfl

theorem success_response_aux (env : Env) (r : Request) (w w1 w2 : World)
    (form : Form) (file : Nat) (hdr : FileHeader)
    (hm : r.Method = "POST".toList) (hs : w.status = []) (hb : w.body = [])
    (hp : ParseMultipartForm env r w (10 <<< 30) = (some form, w1))
    (hf : FormFile env w1 form "file".toList = (some (file, hdr), w2))
    (hok : (uploadHandler env r w).status = [200]) :
    (∃ h, Event.create (destPathOf r hdr.Filename) (some h) ∈
      newEvents w (uploadHandler env r w)) ∧
    (∀ p h, Event.create p h ∈ newEvents w (uploadHandler env r w) →
      p = destPathOf r hdr.Filename) ∧
    (uploadHandler env r w).body =
      "File uploaded successfully to: ".toList ++ destPathOf r hdr.Filename ∧
    readFile (uploadHandler env r w) (destPathOf r hdr.Filename) = some hdr.content ∧
    (queryGet r.query "path".toList = [] →
      destPathOf r hdr.Filename = "uploads/".toList ++ Base hdr.Filename) := by
  have h1 := parse_eq env r w w1 _ _ hp
  obtain ⟨hfile, h2⟩ := formFile_some env w1 w2 form _ file hdr hf
  rcases hd : MkdirAll env w2 (uploadPathOf r) with ⟨_ | _, w3⟩
  · rw [exit_mkdir env r w w1 w2 w3 form file hdr hm hp hf hd] at hok
    simp [httpError, Close, mkdirAll_false env w2 w3 _ hd, h2, h1, hs] at hok
  · have h3 := mkdirAll_true env w2 w3 _ hd
    rcases hc : Create env w3 (destPathOf r hdr.Filename) with ⟨_ | dst, w4⟩
    · rw [exit_create env r w w1 w2 w3 w4 form file hdr hm hp hf hd hc] at hok
      simp [httpError, Close, create_none env w3 w4 _ hc, h3, h2, h1, hs] at hok
    · obtain ⟨hnd, hdst, h4⟩ := create_some env w3 w4 _ dst hc
      have h5 := ioCopy_world env w4 dst hdr.content
      cases hy : env.copyErr with
      | some k =>
        rw [hy] at h5
        rw [exit_copy env r w w1 w2 w3 w4 _ form file hdr dst hm hp hf hd hc h5] at hok
        simp [httpError, Close, h4, h3, h2, h1, hs] at hok
      | none =>
        rw [hy] at h5
        rw [exit_ok env r w w1 w2 w3 w4 _ form file hdr dst hm hp hf hd hc h5]
        have hlast : queryGet r.query "path".toList = [] →
            destPathOf r hdr.Filename = "uploads/".toList ++ Base hdr.Filename := by
          intro hq
          have hup := uploadPathOf_default r hq
          have hdest : destPathOf r hdr.Filename =
              Join ["./uploads".toList, Base hdr.Filename] := by
            rw [destPathOf, hup]
          rw [hdest] at hnd ⊢
          rcases join_uploads hdr.Filename with hj | hj | hj
          · have hmem : Clean "uploads".toList ∈ w3.dirs := by
              rw [h3, hup]
              exact List.mem_append_left _ (by decide)
            rw [hj, isDir_of_mem w3 _ hmem] at hnd
            exact absurd hnd (by decide)
          · rw [hj, isDir_dot w3] at hnd
            exact absurd hnd (by decide)
          · exact hj.2
        subst h4 hdst h3 h2 h1
        refine ⟨⟨w.next + 1, ?_⟩, ?_, ?_, ?_, hlast⟩
        · simp [Fprintf, Close, newEvents]
        · intro p h hmem
          simp [Fprintf, Close, newEvents] at hmem
          exact hmem.1
        · simp [Fprintf, Close, hb]
        · simp [Fprintf, Close, readFile]


/-- C7. A request answered with status 200 is a `POST` whose body parsed and
whose `file` stream was opened; it has called `os.Create` on the destination
path, successfully and on no other path; the response body is
`File uploaded successfully to: ` followed by exactly that path; the file at
that path holds the uploaded bytes; and when the `path` query parameter is
absent or empty the path is `uploads/` followed by the base name of the
client file name. -/
theorem uploadHandler_success_response (env : Env) (r : Request) (w : World)
    (hs : w.status = []) (hb : w.body = [])
    (hok : (uploadHandler env r w).status = [200]) :
    r.Method = "POST".toList ∧
    ∃ form w1 file hdr w2,
      ParseMultipartForm env r w (10 <<< 30) = (some form, w1) ∧
      FormFile env w1 form "file".toList = (some (file, hdr), w2) ∧
      (∃ h, Event.create (destPathOf r hdr.Filename) (some h) ∈
        newEvents w (uploadHandler env r w)) ∧
      (∀ p h, Event.create p h ∈ newEvents w (uploadHandler env r w) →
        p = destPathOf r hdr.Filename) ∧
      (uploadHandler env r w).body =
        "File uploaded successfully to: ".toList ++ destPathOf r hdr.Filename ∧
      readFile (uploadHandler env r w) (destPathOf r hdr.Filename) = some hdr.content ∧
      (queryGet r.query "path".toList = [] →
        destPathOf r hdr.Filename = "uploads/".toList ++ Base hdr.Filename) := by
  by_cases hm : r.Method = "POST".toList
  · refine ⟨hm, ?_⟩
    rcases hp : ParseMultipartForm env r w (10 <<< 30) with ⟨_ | form, w1⟩
    · rw [exit_parse env r w w1 hm hp] at hok
      simp [httpError, parse_eq env r w w1 _ _ hp, hs] at hok
    · rcases hf : FormFile env w1 form "file".toList with ⟨_ | ⟨file, hdr⟩, w2⟩
      · rw [exit_formFile env r w w1 w2 form hm hp hf] at hok
        simp [httpError, formFile_none env w1 w2 form _ hf, parse_eq env r w w1 _ _ hp, hs] at hok
      · exact ⟨form, w1, file, hdr, w2, rfl, hf,
          success_response_aux env r w w1 w2 form file hdr hm hs hb hp hf hok⟩
  · rw [exit_method env r w hm] at hok
    simp [httpError, hs] at hok

/-- The scenario of the specification: `a.txt` holding `hi`, no `path`. -/
theorem uploadHandler_success_response_witness :
    (uploadHandler Env.ok (postFile [] "a.txt".toList [104, 105]) World.empty).status = [200] ∧
    (uploadHandler Env.ok (postFile [] "a.txt".toList [104, 105]) World.empty).body =
      "File uploaded successfully to: uploads/a.txt".toList ∧
    readFile (uploadHandler Env.ok (postFile [] "a.txt".toList [104, 105]) World.empty)
      "uploads/a.txt".toList = some [104, 105] ∧
    ∃ form w1 file hdr w2,
      ParseMultipartForm Env.ok (postFile [] "a.txt".toList [104, 105]) World.empty (10 <<< 30) =
        (some form, w1) ∧
      FormFile Env.ok w1 form "file".toList = (some (file, hdr), w2) ∧
      (uploadHandler Env.ok (postFile [] "a.txt".toList [104, 105]) World.empty).body =
        "File uploaded successfully to: ".toList ++
          destPathOf (postFile [] "a.txt".toList [104, 105]) hdr.Filename ∧
      readFile (uploadHandler Env.ok (postFile [] "a.txt".toList [104, 105]) World.empty)
        (destPathOf (postFile [] "a.txt".toList [104, 105]) hdr.Filename) = some hdr.content ∧
      destPathOf (postFile [] "a.txt".toList [104, 105]) hdr.Filename =
        "uploads/".toList ++ Base hdr.Filename :=
  have h := uploadHandler_success_response Env.ok (postFile [] "a.txt".toList [104, 105])
    World.empty rfl rfl (by decide)
  ⟨by decide, by decide, by decide,
    match h.2 with
    | ⟨form, w1, file, hdr, w2, h1, h2, _, _, h5, h6, h7⟩ =>
      ⟨form, w1, file, hdr, w2, h1, h2, h5, h6, h7 (by decide)⟩⟩

theorem segments_ne_nil (l : Str) : segments l ≠ [] := by
  cases l with
  | nil => simp [segments]
  | cons c t =>
    simp only [segments]
    split_ifs
    · simp
    · split <;> simp

theorem segments_notSep (b : Str) (h : b.all (fun x => !isSep x) = true) : segments b = [b] := by
  induction b with
  | nil => rfl
  | cons c t ih =>
    simp only [List.all_cons, Bool.and_eq_true] at h
    have hc : isSep c = false := by simpa using h.1
    simp [segments, hc, ih h.2]

theorem segments_append (l b : Str) :
    segments (l ++ '/' :: b) = segments l ++ segments b := by
  induction l with
  | nil => simp [segments, isSep]
  | cons c t ih =>
    rw [List.cons_append]
    by_cases hc : isSep c = true
    · simp only [segments, hc, if_true]
      rw [ih]
      rfl
    · simp only [segments, hc]
      rw [ih]
      cases hs : segments t with
      | nil => exact absurd hs (segments_ne_nil t)
      | cons s ss => rfl

theorem normalSeg_all (b : Str) (h : normalSeg b = true) : b.all (fun x => !isSep x) = true := by
  unfold normalSeg at h
  simp only [Bool.and_eq_true] at h
  exact h.2

theorem isStrictDescendant_child (root c b : Str)
    (hc : c = root ∨ isStrictDescendant root c = true) (hb : normalSeg b = true) :
    isStrictDescendant root (c ++ '/' :: b) = true := by
  have hsb := segments_notSep b (normalSeg_all b hb)
  rcases hc with rfl | hc
  · unfold isStrictDescendant
    have hpre : (c ++ ['/']).isPrefixOf (c ++ '/' :: b) = true := by
      rw [List.isPrefixOf_iff_prefix]
      exact ⟨b, by simp⟩
    have hdrop : (c ++ '/' :: b).drop (c.length + 1) = b := by
      have : c ++ '/' :: b = (c ++ ['/']) ++ b := by simp
      rw [this, List.drop_left' (by simp)]
    rw [hpre, hdrop, hsb]
    simp [hb]
  · unfold isStrictDescendant at hc ⊢
    simp only [Bool.and_eq_true] at hc
    obtain ⟨hp, hall⟩ := hc
    rw [List.isPrefixOf_iff_prefix] at hp
    obtain ⟨rel, hrel⟩ := hp
    subst hrel
    have hdrop0 : (root ++ ['/'] ++ rel).drop (root.length + 1) = rel :=
      List.drop_left' (by simp)
    have hdrop : (root ++ ['/'] ++ rel ++ '/' :: b).drop (root.length + 1) = rel ++ '/' :: b := by
      rw [List.append_assoc (root ++ ['/'])]
      exact List.drop_left' (by simp)
    rw [hdrop0] at hall
    have hpre : (root ++ ['/']).isPrefixOf (root ++ ['/'] ++ rel ++ '/' :: b) = true := by
      rw [List.isPrefixOf_iff_prefix]
      exact ⟨rel ++ '/' :: b, by simp⟩
    rw [hpre, hdrop, segments_append, hsb]
    simp only [Bool.true_and, List.all_append, hall, List.all_cons, hb, List.all_nil]

theorem mkdir_events (env : Env) (r : Request) (w : World) :
    ∀ p ok, Event.mkdirAll p ok ∈ newEvents w (uploadHandler env r w) → p = uploadPathOf r := by
  intro p ok
  by_cases hm : r.Method = "POST".toList
  · rcases hp : ParseMultipartForm env r w (10 <<< 30) with ⟨_ | form, w1⟩
    · rw [exit_parse env r w w1 hm hp]
      have h1 := parse_eq env r w w1 _ _ hp
      subst h1
      simp [httpError, newEvents]
    · have h1 := parse_eq env r w w1 _ _ hp
      rcases hf : FormFile env w1 form "file".toList with ⟨_ | ⟨file, hdr⟩, w2⟩
      · rw [exit_formFile env r w w1 w2 form hm hp hf]
        have h2 := formFile_none env w1 w2 form _ hf
        subst h2 h1
        simp [httpError, newEvents]
      · obtain ⟨hfile, h2⟩ := formFile_some env w1 w2 form _ file hdr hf
        rcases hd : MkdirAll env w2 (uploadPathOf r) with ⟨_ | _, w3⟩
        · rw [exit_mkdir env r w w1 w2 w3 form file hdr hm hp hf hd]
          have h3 := mkdirAll_false env w2 w3 _ hd
          subst h3 h2 h1 hfile
          simp only [httpError, Close, newEvents]
          simp
          intro h _; exact h
        · have h3 := mkdirAll_true env w2 w3 _ hd
          rcases hc : Create env w3 (destPathOf r hdr.Filename) with ⟨_ | dst, w4⟩
          · rw [exit_create env r w w1 w2 w3 w4 form file hdr hm hp hf hd hc]
            have h4 := create_none env w3 w4 _ hc
            subst h4 h3 h2 h1 hfile
            simp only [httpError, Close, newEvents]
            simp
            intro h _; exact h
          · obtain ⟨-, hdst, h4⟩ := create_some env w3 w4 _ dst hc
            rcases hy : ioCopy env w4 dst hdr.content with ⟨_ | _, w5⟩
            · rw [exit_copy env r w w1 w2 w3 w4 w5 form file hdr dst hm hp hf hd hc hy]
              have h5 := ioCopy_world env w4 dst hdr.content
              rw [hy] at h5
              have h5 := (Prod.mk.inj h5).2
              subst h5 h4 hdst h3 h2 h1 hfile
              simp only [httpError, Close, newEvents]
              simp
              intro h _; exact h
            · rw [exit_ok env r w w1 w2 w3 w4 w5 form file hdr dst hm hp hf hd hc hy]
              have h5 := ioCopy_world env w4 dst hdr.content
              rw [hy] at h5
              have h5 := (Prod.mk.inj h5).2
              subst h5 h4 hdst h3 h2 h1 hfile
              simp only [Fprintf, Close, newEvents]
              simp
              intro h _; exact h
  · rw [exit_method env r w hm]
    simp [httpError, newEvents]

theorem create_events (env : Env) (r : Request) (w w1 w2 : World)
    (form : Form) (file : Nat) (hdr : FileHeader)
    (hm : r.Method = "POST".toList)
    (hp : ParseMultipartForm env r w (10 <<< 30) = (some form, w1))
    (hf : FormFile env w1 form "file".toList = (some (file, hdr), w2)) :
    ∀ p h, Event.create p h ∈ newEvents w (uploadHandler env r w) →
      p = destPathOf r hdr.Filename := by
  intro p h
  have h1 := parse_eq env r w w1 _ _ hp
  obtain ⟨hfile, h2⟩ := formFile_some env w1 w2 form _ file hdr hf
  rcases hd : MkdirAll env w2 (uploadPathOf r) with ⟨_ | _, w3⟩
  · rw [exit_mkdir env r w w1 w2 w3 form file hdr hm hp hf hd]
    have h3 := mkdirAll_false env w2 w3 _ hd
    subst h3 h2 h1 hfile
    simp [httpError, Close, newEvents]
  · have h3 := mkdirAll_true env w2 w3 _ hd
    rcases hc : Create env w3 (destPathOf r hdr.Filename) with ⟨_ | dst, w4⟩
    · rw [exit_create env r w w1 w2 w3 w4 form file hdr hm hp hf hd hc]
      have h4 := create_none env w3 w4 _ hc
      subst h4 h3 h2 h1 hfile
      simp only [httpError, Close, newEvents]
      simp
      intro h _; exact h
    · obtain ⟨-, hdst, h4⟩ := create_some env w3 w4 _ dst hc
      rcases hy : ioCopy env w4 dst hdr.content with ⟨_ | _, w5⟩
      · rw [exit_copy env r w w1 w2 w3 w4 w5 form file hdr dst hm hp hf hd hc hy]
        have h5 := ioCopy_world env w4 dst hdr.content
        rw [hy] at h5
        have h5 := (Prod.mk.inj h5).2
        subst h5 h4 hdst h3 h2 h1 hfile
        simp only [httpError, Close, newEvents]
        simp
        intro h _; exact h
      · rw [exit_ok env r w w1 w2 w3 w4 w5 form file hdr dst hm hp hf hd hc hy]
        have h5 := ioCopy_world env w4 dst hdr.content
        rw [hy] at h5
        have h5 := (Prod.mk.inj h5).2
        subst h5 h4 hdst h3 h2 h1 hfile
        simp only [Fprintf, Close, newEvents]
        simp
        intro h _; exact h

theorem ok_status (env : Env) (r : Request) (w w1 w2 w3 w4 : World)
    (form : Form) (file : Nat) (hdr : FileHeader) (dst : File)
    (hm : r.Method = "POST".toList) (hs : w.status = [])
    (hp : ParseMultipartForm env r w (10 <<< 30) = (some form, w1))
    (hf : FormFile env w1 form "file".toList = (some (file, hdr), w2))
    (hd : MkdirAll env w2 (uploadPathOf r) = (true, w3))
    (hc : Create env w3 (destPathOf r hdr.Filename) = (some dst, w4))
    (hy : env.copyErr = none) :
    (uploadHandler env r w).status = [200] ∧
    readFile (uploadHandler env r w) (destPathOf r hdr.Filename) = some hdr.content := by
  have hcopy := ioCopy_world env w4 dst hdr.content
  rw [hy] at hcopy
  rw [exit_ok env r w w1 w2 w3 w4 _ form file hdr dst hm hp hf hd hc hcopy]
  obtain ⟨-, hdst, h4⟩ := create_some env w3 w4 _ dst hc
  have h3 := mkdirAll_true env w2 w3 _ hd
  obtain ⟨-, h2⟩ := formFile_some env w1 w2 form _ file hdr hf
  have h1 := parse_eq env r w w1 _ _ hp
  subst h4 hdst h3 h2 h1
  simp [Fprintf, Close, hs, readFile]

theorem status_not_400 (env : Env) (r : Request) (w w1 w2 : World)
    (form : Form) (file : Nat) (hdr : FileHeader)
    (hm : r.Method = "POST".toList) (hs : w.status = [])
    (hp : ParseMultipartForm env r w (10 <<< 30) = (some form, w1))
    (hf : FormFile env w1 form "file".toList = (some (file, hdr), w2)) :
    ((uploadHandler env r w).status = [200] ∨ (uploadHandler env r w).status = [500]) ∧
    ∃ ok, Event.mkdirAll (uploadPathOf r) ok ∈ newEvents w (uploadHandler env r w) := by
  have h1 := parse_eq env r w w1 _ _ hp
  obtain ⟨hfile, h2⟩ := formFile_some env w1 w2 form _ file hdr hf
  rcases hd : MkdirAll env w2 (uploadPathOf r) with ⟨_ | _, w3⟩
  · rw [exit_mkdir env r w w1 w2 w3 form file hdr hm hp hf hd]
    have h3 := mkdirAll_false env w2 w3 _ hd
    subst h3 h2 h1 hfile
    simp [httpError, Close, hs, newEvents]
  · have h3 := mkdirAll_true env w2 w3 _ hd
    rcases hc : Create env w3 (destPathOf r hdr.Filename) with ⟨_ | dst, w4⟩
    · rw [exit_create env r w w1 w2 w3 w4 form file hdr hm hp hf hd hc]
      have h4 := create_none env w3 w4 _ hc
      subst h4 h3 h2 h1 hfile
      simp [httpError, Close, hs, newEvents]
    · obtain ⟨-, hdst, h4⟩ := create_some env w3 w4 _ dst hc
      have h5 := ioCopy_world env w4 dst hdr.content
      cases hy : env.copyErr with
      | some k =>
        rw [hy] at h5
        rw [exit_copy env r w w1 w2 w3 w4 _ form file hdr dst hm hp hf hd hc h5]
        subst h4 hdst h3 h2 h1 hfile
        simp [httpError, Close, hs, newEvents]
      | none =>
        rw [hy] at h5
        rw [exit_ok env r w w1 w2 w3 w4 _ form file hdr dst hm hp hf hd hc h5]
        subst h4 hdst h3 h2 h1 hfile
        simp [Fprintf, Close, hs, newEvents]

/-- C1, as the code has it. When the upload directory (the `path` query
parameter, or `./uploads` when it is absent or empty) cleans to `uploads` or
to a strict descendant of `uploads`, and the base name of the client file
name is an ordinary path element (not `.`, `..` or `/`), then the only path
`uploadHandler` passes to `os.Create` is the cleaned directory, a separator
and the base name, which is a strict descendant of `uploads`. -/
theorem destPath_contained (env : Env) (r : Request) (w w1 w2 : World)
    (form : Form) (file : Nat) (hdr : FileHeader)
    (hm : r.Method = "POST".toList)
    (hp : ParseMultipartForm env r w (10 <<< 30) = (some form, w1))
    (hf : FormFile env w1 form "file".toList = (some (file, hdr), w2))
    (hup : Clean (uploadPathOf r) = "uploads".toList ∨
      isStrictDescendant "uploads".toList (Clean (uploadPathOf r)) = true)
    (hb : normalSeg (Base hdr.Filename) = true) :
    (∀ p h, Event.create p h ∈ newEvents w (uploadHandler env r w) →
      p = destPathOf r hdr.Filename) ∧
    destPathOf r hdr.Filename = Clean (uploadPathOf r) ++ '/' :: Base hdr.Filename ∧
    isStrictDescendant "uploads".toList (destPathOf r hdr.Filename) = true := by
  have hne : uploadPathOf r ≠ [] := by
    unfold uploadPathOf
    simp only
    split_ifs with h
    · decide
    · exact h
  have hnot : Clean (uploadPathOf r) ≠ ['.'] ∧ Clean (uploadPathOf r) ≠ ['/'] := by
    rcases hup with h | h
    · rw [h]; decide
    · constructor <;> intro h2 <;> rw [h2] at h <;> exact absurd h (by decide)
  have hdest : destPathOf r hdr.Filename =
      Clean (uploadPathOf r) ++ '/' :: Base hdr.Filename := by
    rcases join_normal (uploadPathOf r) (Base hdr.Filename) hne hb with h | h | h
    · exact absurd h.1 hnot.1
    · exact absurd h.1 hnot.2
    · exact h
  refine ⟨create_events env r w w1 w2 form file hdr hm hp hf, hdest, ?_⟩
  rw [hdest]
  exact isStrictDescendant_child _ _ _ hup hb

/-- The default directory with a file name that tries to climb, and a hint that stays under `uploads`. -/
theorem destPath_contained_witness :
    (∀ p h, Event.create p h ∈ newEvents World.empty
        (uploadHandler Env.ok (postFile [] "../a.txt".toList [104, 105]) World.empty) →
      p = "uploads/a.txt".toList) ∧
    isStrictDescendant "uploads".toList "uploads/a.txt".toList = true ∧
    (∀ p h, Event.create p h ∈ newEvents World.empty
        (uploadHandler Env.ok
          (postFile [("path".toList, "uploads/x/../y".toList)] "b/c".toList [104])
          World.empty) →
      p = "uploads/y/c".toList) ∧
    isStrictDescendant "uploads".toList "uploads/y/c".toList = true :=
  have h1 := destPath_contained Env.ok (postFile [] "../a.txt".toList [104, 105]) World.empty
      _ _ _ _ ⟨"a.txt".toList, [104, 105], false⟩ rfl rfl rfl
      (Or.inl (by decide)) (by decide)
  have h2 := destPath_contained Env.ok
      (postFile [("path".toList, "uploads/x/../y".toList)] "b/c".toList [104]) World.empty
      _ _ _ _ ⟨"c".toList, [104], false⟩ rfl rfl rfl
      (Or.inr (by decide)) (by decide)
  ⟨h1.1, h1.2.2, h2.1, h2.2.2⟩

/-- C1 fails as stated: with `path=../../etc` the handler creates
`../../etc/passwd`, and with no `path` it passes `.` to `os.Create` for the
file name `..` and `uploads` itself for the file name `.`; none of them is a
strict descendant of `uploads`. -/
theorem destPath_contained_counterexample :
    destPathOf (postFile [("path".toList, "../../etc".toList)] "passwd".toList [120])
      "passwd".toList = "../../etc/passwd".toList ∧
    Event.create "../../etc/passwd".toList (some 1) ∈
      (uploadHandler Env.ok (postFile [("path".toList, "../../etc".toList)] "passwd".toList [120])
        World.empty).trace ∧
    isStrictDescendant "uploads".toList "../../etc/passwd".toList = false ∧
    Event.create ".".toList none ∈
      (uploadHandler Env.ok (postFile [] "..".toList [120]) World.empty).trace ∧
    isStrictDescendant "uploads".toList ".".toList = false ∧
    Event.create "uploads".toList none ∈
      (uploadHandler Env.ok (postFile [] ".".toList [120]) World.empty).trace ∧
    isStrictDescendant "uploads".toList "uploads".toList = false := by
  decide

theorem io_fail_status (env : Env) (r : Request) (w w1 w2 : World)
    (form : Form) (file : Nat) (hdr : FileHeader)
    (hm : r.Method = "POST".toList) (hs : w.status = [])
    (hp : ParseMultipartForm env r w (10 <<< 30) = (some form, w1))
    (hf : FormFile env w1 form "file".toList = (some (file, hdr), w2)) :
    ((MkdirAll env w2 (uploadPathOf r)).1 = false →
      (uploadHandler env r w).status = [500]) ∧
    ((Create env (MkdirAll env w2 (uploadPathOf r)).2 (destPathOf r hdr.Filename)).1 = none →
      (uploadHandler env r w).status = [500]) ∧
    (env.copyErr ≠ none → (uploadHandler env r w).status = [500]) := by
  have h1 := parse_eq env r w w1 _ _ hp
  obtain ⟨hfile, h2⟩ := formFile_some env w1 w2 form _ file hdr hf
  rcases hd : MkdirAll env w2 (uploadPathOf r) with ⟨_ | _, w3⟩
  · rw [exit_mkdir env r w w1 w2 w3 form file hdr hm hp hf hd]
    have h3 := mkdirAll_false env w2 w3 _ hd
    subst h3 h2 h1 hfile
    simp [httpError, Close, hs]
  · have h3 := mkdirAll_true env w2 w3 _ hd
    rcases hc : Create env w3 (destPathOf r hdr.Filename) with ⟨_ | dst, w4⟩
    · rw [exit_create env r w w1 w2 w3 w4 form file hdr hm hp hf hd hc]
      simp [httpError, Close, h3, h2, h1, hs, create_none env w3 w4 _ hc]
    · obtain ⟨-, hdst, h4⟩ := create_some env w3 w4 _ dst hc
      have h5 := ioCopy_world env w4 dst hdr.content
      cases hy : env.copyErr with
      | some k =>
        rw [hy] at h5
        rw [exit_copy env r w w1 w2 w3 w4 _ form file hdr dst hm hp hf hd hc h5]
        simp [httpError, Close, h4, h3, h2, h1, hs]
      | none => simp

/-- C2, as the code has it. For a `POST` whose body `ParseMultipartForm`
accepts and whose `file` part `FormFile` opens, the `path` query parameter is
not validated: whatever it is (parent-directory segments and absolute paths
included) the handler calls `os.MkdirAll` on it verbatim (on `./uploads` when
it is empty) and does not answer 400.  It answers 200, with the upload stored
at the joined path, when directory creation, file creation and the copy all
succeed, and 500 when any of the three fails. -/
theorem uploadHandler_hint_unchecked (env : Env) (r : Request) (w w1 w2 : World)
    (form : Form) (file : Nat) (hdr : FileHeader)
    (hm : r.Method = "POST".toList) (hs : w.status = [])
    (hp : ParseMultipartForm env r w (10 <<< 30) = (some form, w1))
    (hf : FormFile env w1 form "file".toList = (some (file, hdr), w2)) :
    (queryGet r.query "path".toList ≠ [] →
      uploadPathOf r = queryGet r.query "path".toList) ∧
    (∃ ok, Event.mkdirAll (uploadPathOf r) ok ∈ newEvents w (uploadHandler env r w)) ∧
    (uploadHandler env r w).status ≠ [400] ∧
    ((uploadHandler env r w).status = [200] ∨ (uploadHandler env r w).status = [500]) ∧
    (∀ w3 dst w4, MkdirAll env w2 (uploadPathOf r) = (true, w3) →
      Create env w3 (Join [uploadPathOf r, Base hdr.Filename]) = (some dst, w4) →
      env.copyErr = none →
      (uploadHandler env r w).status = [200] ∧
      readFile (uploadHandler env r w) (Join [uploadPathOf r, Base hdr.Filename]) =
        some hdr.content) ∧
    ((MkdirAll env w2 (uploadPathOf r)).1 = false →
      (uploadHandler env r w).status = [500]) ∧
    ((Create env (MkdirAll env w2 (uploadPathOf r)).2
        (Join [uploadPathOf r, Base hdr.Filename])).1 = none →
      (uploadHandler env r w).status = [500]) ∧
    (env.copyErr ≠ none → (uploadHandler env r w).status = [500]) := by
  have hst := status_not_400 env r w w1 w2 form file hdr hm hs hp hf
  have hfail := io_fail_status env r w w1 w2 form file hdr hm hs hp hf
  refine ⟨?_, hst.2, ?_, hst.1, ?_, hfail.1, hfail.2.1, hfail.2.2⟩
  · intro hq
    unfold uploadPathOf
    exact if_neg hq
  · rcases hst.1 with h | h <;> rw [h] <;> decide
  · intro w3 dst w4 hd hc hy
    exact ok_status env r w w1 w2 w3 w4 form file hdr dst hm hs hp hf hd hc hy

/-- An absolute hint with a parent-directory segment is accepted and used;
a hint whose directory cannot be made is answered 500, not 400. -/
theorem uploadHandler_hint_unchecked_witness :
    (uploadHandler Env.ok (postFile [("path".toList, "/srv/../etc".toList)] "x".toList [120])
      World.empty).status = [200] ∧
    readFile (uploadHandler Env.ok
      (postFile [("path".toList, "/srv/../etc".toList)] "x".toList [120]) World.empty)
      "/etc/x".toList = some [120] ∧
    (uploadHandler { Env.ok with mkdirAllErr := fun _ => true }
      (postFile [("path".toList, "../../etc".toList)] "x".toList [120])
      World.empty).status = [500] :=
  have h1 := (uploadHandler_hint_unchecked Env.ok
    (postFile [("path".toList, "/srv/../etc".toList)] "x".toList [120]) World.empty
    _ _ _ _ ⟨"x".toList, [120], false⟩ rfl rfl rfl rfl).2.2.2.2.1 _ _ _ rfl rfl rfl
  have h2 := (uploadHandler_hint_unchecked { Env.ok with mkdirAllErr := fun _ => true }
    (postFile [("path".toList, "../../etc".toList)] "x".toList [120]) World.empty
    _ _ _ _ ⟨"x".toList, [120], false⟩ rfl rfl rfl rfl).2.2.2.2.2.1 rfl
  ⟨h1.1, h1.2, h2⟩

/-- C2 fails as stated: `POST /upload?path=../../etc` with a `file` part is
answered 200, after `os.MkdirAll("../../etc")` and with the upload stored at
`../../etc/passwd`, outside the storage root. -/
theorem uploadHandler_hint_counterexample :
    (uploadHandler Env.ok (postFile [("path".toList, "../../etc".toList)] "passwd".toList [120])
      World.empty).status = [200] ∧
    Event.mkdirAll "../../etc".toList true ∈
      (uploadHandler Env.ok (postFile [("path".toList, "../../etc".toList)] "passwd".toList [120])
        World.empty).trace ∧
    readFile (uploadHandler Env.ok
      (postFile [("path".toList, "../../etc".toList)] "passwd".toList [120]) World.empty)
      "../../etc/passwd".toList = some [120] ∧
    isStrictDescendant "uploads".toList "../../etc/passwd".toList = false ∧
    "../../etc".toList ≠ "uploads".toList := by
  decide

/-- C3, as the code has it. For a client file name with at least one
character that is not a separator, the only path `uploadHandler` passes to
`os.Create` is `filepath.Join(d, b)` with `d` the upload directory and `b`
the base name; `b` is not empty, contains no separator, and is the final
element of the file name (the name is a prefix that is empty or ends in a
separator, then `b`, then only separators); and the only argument of
`os.MkdirAll` is `d`, so no directory derived from the file name is made. -/
theorem destPath_uses_base (env : Env) (r : Request) (w w1 w2 : World)
    (form : Form) (file : Nat) (hdr : FileHeader)
    (hm : r.Method = "POST".toList)
    (hp : ParseMultipartForm env r w (10 <<< 30) = (some form, w1))
    (hf : FormFile env w1 form "file".toList = (some (file, hdr), w2))
    (hn : ∃ c ∈ hdr.Filename, isSep c = false) :
    (∀ p h, Event.create p h ∈ newEvents w (uploadHandler env r w) →
      p = Join [uploadPathOf r, Base hdr.Filename]) ∧
    (∀ p ok, Event.mkdirAll p ok ∈ newEvents w (uploadHandler env r w) →
      p = uploadPathOf r) ∧
    Base hdr.Filename ≠ [] ∧
    (Base hdr.Filename).all (fun x => !isSep x) = true ∧
    (∃ pre suf, hdr.Filename = pre ++ Base hdr.Filename ++ suf ∧ suf.all isSep = true ∧
      (pre = [] ∨ pre.getLast? = some '/')) := by
  obtain ⟨h1, h2, h3⟩ := Base_of_notSep hdr.Filename hn
  exact ⟨create_events env r w w1 w2 form file hdr hm hp hf, mkdir_events env r w, h1, h2, h3⟩

/-- The scenario of the specification: the file name `../secret` with no hint. -/
theorem destPath_uses_base_witness :
    (∀ p h, Event.create p h ∈ newEvents World.empty
        (uploadHandler Env.ok (postFile [] "../secret".toList [120]) World.empty) →
      p = "uploads/secret".toList) ∧
    Base "../secret".toList = "secret".toList ∧
    readFile (uploadHandler Env.ok (postFile [] "../secret".toList [120]) World.empty)
      "uploads/secret".toList = some [120] :=
  ⟨(destPath_uses_base Env.ok (postFile [] "../secret".toList [120]) World.empty
      _ _ _ _ ⟨"secret".toList, [120], false⟩ rfl rfl rfl ⟨'s', by decide, by decide⟩).1,
    by decide, by decide⟩

/-- C3 fails as stated: the file name `/` contains a separator and its base
name is `/`, which contains a separator; the destination is then the upload
directory itself. -/
theorem destPath_uses_base_counterexample :
    (∃ c ∈ "/".toList, isSep c = true) ∧
    Base "/".toList = "/".toList ∧
    (Base "/".toList).all (fun x => !isSep x) = false ∧
    Join ["./uploads".toList, Base "/".toList] = "uploads".toList ∧
    Event.create "uploads".toList none ∈
      (uploadHandler Env.ok (postFile [] "/".toList [120]) World.empty).trace := by
  decide

theorem parse_single_file (w : World) (content : Bytes) :
    ∃ d, ParseMultipartForm Env.ok (postFile [] "big.bin".toList content) w (10 <<< 30) =
      (some ⟨[], [("file".toList, ⟨"big.bin".toList, content, d⟩)]⟩,
        { w with trace := w.trace ++ [Event.parseForm (10 <<< 30)] }) := by
  have hfn : Part.FileName
      { Header := [("Content-Disposition".toList,
          ["form-data; name=file; filename=".toList ++ "big.bin".toList])],
        name := "file".toList, filename := "big.bin".toList, content := content } =
      "big.bin".toList := by
    show (if "big.bin".toList = [] then [] else Base "big.bin".toList) = "big.bin".toList
    decide
  by_cases h : 10737418240 < content.length
  · refine ⟨true, ?_⟩
    simp only [ParseMultipartForm, postFile, readForm, hfn]
    simp [mimeHeaderSize, Env.ok, h]
  · refine ⟨false, ?_⟩
    simp only [ParseMultipartForm, postFile, readForm, hfn]
    simp [mimeHeaderSize, Env.ok, h]

theorem accepts_any_size (content : Bytes) :
    (uploadHandler Env.ok (postFile [] "big.bin".toList content) World.empty).status = [200] ∧
    readFile (uploadHandler Env.ok (postFile [] "big.bin".toList content) World.empty)
      "uploads/big.bin".toList = some content := by
  obtain ⟨d, hp⟩ := parse_single_file World.empty content
  obtain ⟨w2, hf⟩ : ∃ w2, FormFile Env.ok
      { World.empty with trace := World.empty.trace ++ [Event.parseForm (10 <<< 30)] }
      ⟨[], [("file".toList, ⟨"big.bin".toList, content, d⟩)]⟩ "file".toList =
      (some (0, ⟨"big.bin".toList, content, d⟩), w2) := by
    cases d <;> exact ⟨_, rfl⟩
  obtain ⟨-, h2⟩ := formFile_some _ _ _ _ _ _ _ hf
  have hup : uploadPathOf (postFile [] "big.bin".toList content) = "./uploads".toList := rfl
  have hdest : destPathOf (postFile [] "big.bin".toList content) "big.bin".toList =
      "uploads/big.bin".toList := by
    rw [destPathOf, hup]
    decide
  obtain ⟨w3, hd⟩ : ∃ w3, MkdirAll Env.ok w2 (uploadPathOf (postFile [] "big.bin".toList content)) =
      (true, w3) := by
    rw [hup, h2]
    exact ⟨_, rfl⟩
  have h3 := mkdirAll_true _ _ _ _ hd
  obtain ⟨dst, w4, hc⟩ : ∃ dst w4, Create Env.ok w3
      (destPathOf (postFile [] "big.bin".toList content) "big.bin".toList) = (some dst, w4) := by
    rw [hdest, h3, h2, hup]
    exact ⟨_, _, rfl⟩
  have h := ok_status Env.ok (postFile [] "big.bin".toList content) World.empty _ _ _ _ _ _
    ⟨"big.bin".toList, content, d⟩ _ rfl rfl hp hf hd hc rfl
  rw [hdest] at h
  exact h

/-- C6, on the code: a `POST` whose `file` part is one byte longer than
`10 << 30` parses (the part is put on disk, not rejected), is answered with
status 200 and is stored in full at `uploads/big.bin`. -/
theorem uploadHandler_accepts_oversized :
    10 <<< 30 < (List.replicate (10 <<< 30 + 1) (0 : UInt8)).length ∧
    (uploadHandler Env.ok
      (postFile [] "big.bin".toList (List.replicate (10 <<< 30 + 1) (0 : UInt8)))
      World.empty).status = [200] ∧
    readFile (uploadHandler Env.ok
      (postFile [] "big.bin".toList (List.replicate (10 <<< 30 + 1) (0 : UInt8)))
      World.empty) "uploads/big.bin".toList =
      some (List.replicate (10 <<< 30 + 1) (0 : UInt8)) :=
  ⟨by rw [List.length_replicate]; exact Nat.lt_succ_self _,
    accepts_any_size (List.replicate (10 <<< 30 + 1) (0 : UInt8))⟩

end MyFlix
